import Mathlib

/-!
# Point-in-polygon test `IsPtInArea` (src/IsPtInArea.cpp)

Shallow embedding of the function `IsPtInArea` and theorems about it.

* `double` coordinates are exact rationals (`ℚ`); rounding, NaN and infinities are outside
  the model.
* `AcGePoint3dArray& pt3dArr` is a `List AcGePoint3d` that is threaded through the call: the
  function returns the boolean together with the array as it is left for the caller.
* An array access outside the bounds, or `removeLast` on an empty array, makes the whole call
  return `none`.
* `Compfloat`, `AcGePoint3d::isEqualTo`, `AcGeLineSeg3d::isOn` and
  `AcGeLineSeg3d::intersectWith` are not defined in the source file. They are a parameter
  (`Collab`) of the embedding; `refCollab` is one concrete choice, written from the
  specification.
* `int` counters (`iLen`, `i`, `nCount`) are natural numbers: they are bounded by the array
  length plus one, so no wrap-around is modelled.
-/

namespace CadGeometry

/-! ## Data model -/

/-- Point with three `double` coordinates (`AcGePoint3d`). -/
structure AcGePoint3d where
  x : ℚ
  y : ℚ
  z : ℚ
  deriving DecidableEq

/-- Tolerance object (`AcGeTol`) with its two settings. -/
structure AcGeTol where
  equalVector : ℚ
  equalPoint : ℚ
  deriving DecidableEq

/-- Bounded line segment (`AcGeLineSeg3d`), built from its two end points. -/
structure AcGeLineSeg3d where
  startPoint : AcGePoint3d
  endPoint : AcGePoint3d
  deriving DecidableEq

/-- The four collaborators that `IsPtInArea` calls and that the source file does not define.
`Compfloat a b` is the three-way comparison (negative, zero, positive);
`isEqualTo a b tol` is `a.isEqualTo(b, tol)`;
`isOn s p tol` is `s.isOn(p, tol) == Adesk::kTrue`;
`intersectWith s t tol` is `some ipt` when `s.intersectWith(t, ipt, tol) == Adesk::kTrue`. -/
structure Collab where
  Compfloat : ℚ → ℚ → Int
  isEqualTo : AcGePoint3d → AcGePoint3d → AcGeTol → Bool
  isOn : AcGeLineSeg3d → AcGePoint3d → AcGeTol → Bool
  intersectWith : AcGeLineSeg3d → AcGeLineSeg3d → AcGeTol → Option AcGePoint3d

/-- The assignment `p.z = 0.0` (lines 42, 49, 70). -/
def setZ0 (p : AcGePoint3d) : AcGePoint3d := ⟨p.x, p.y, 0⟩

/-- The tolerance built at lines 51-53: `setEqualVector(0.01)`, `setEqualPoint(0.01)`. -/
def tol : AcGeTol := ⟨1 / 100, 1 / 100⟩

/-! ## Bounding box (lines 16-32) -/

/-- The four running extrema `dblMaxX`, `dblMinX`, `dblMaxY`, `dblMinY`. -/
structure Box where
  dblMaxX : ℚ
  dblMinX : ℚ
  dblMaxY : ℚ
  dblMinY : ℚ
  deriving DecidableEq

/-- Lines 18-21: all four extrema start at vertex 0. -/
def boxInit (v : AcGePoint3d) : Box := ⟨v.x, v.x, v.y, v.y⟩

/-- Body of the first loop (lines 24-31) for the vertex `v = pt3dArr[i]`. -/
def boxStep (b : Box) (v : AcGePoint3d) : Box :=
  ⟨if v.x > b.dblMaxX then v.x else b.dblMaxX,
   if v.x < b.dblMinX then v.x else b.dblMinX,
   if v.y > b.dblMaxY then v.y else b.dblMaxY,
   if v.y < b.dblMinY then v.y else b.dblMinY⟩

/-- The loop `for (i = 1; i < iLen; i++)` of lines 22-32. The first argument is the number
of iterations still to run (`iLen - i`), the second is `i`. -/
def boxLoop (pt3dArr : List AcGePoint3d) : Nat → Nat → Box → Option Box
  | 0, _, b => some b
  | k + 1, i, b =>
    match pt3dArr[i]? with
    | none => none
    | some v => boxLoop pt3dArr k (i + 1) (boxStep b v)

/-- The reject test of lines 35-36. -/
def boxReject (G : Collab) (pt : AcGePoint3d) (b : Box) : Bool :=
  decide (G.Compfloat pt.x b.dblMaxX > 0) || decide (G.Compfloat pt.x b.dblMinX < 0)
    || decide (G.Compfloat pt.y b.dblMaxY > 0) || decide (G.Compfloat pt.y b.dblMinY < 0)

/-! ## Edge walk (lines 64-123) -/

/-- The call `pt3dArr.removeLast()`; it needs a non-empty array. -/
def removeLast (a : List AcGePoint3d) : Option (List AcGePoint3d) :=
  match a with
  | [] => none
  | _ :: _ => some a.dropLast

/-- Every `return` after the closure step: `if (bAdd) pt3dArr.removeLast(); return r;`
(lines 75-77, 85-87, 116-123). -/
def leave (bAdd : Bool) (pt3dArr : List AcGePoint3d) (r : Bool) :
    Option (Bool × List AcGePoint3d) :=
  if bAdd then
    match removeLast pt3dArr with
    | none => none
    | some a => some (r, a)
  else some (r, pt3dArr)

/-- Lines 93-111: what one edge `(p1, p2)` adds to `nCount`. -/
def crossing (G : Collab) (lineseg3d : AcGeLineSeg3d) (p1 p2 : AcGePoint3d) : Nat :=
  match G.intersectWith lineseg3d ⟨p1, p2⟩ tol with
  | none => 0
  | some ipt =>
    if G.isEqualTo ipt p1 tol then
      (if p2.y > ipt.y then 1 else 0)
    else if G.isEqualTo ipt p2 tol then
      (if p1.y > ipt.y then 1 else 0)
    else 1

/-- The loop `for (i = 1; i < iLen; i++)` of lines 67-114 followed by lines 116-123. The
first numeric argument is the number of iterations still to run (`iLen - i`), the second is
`i`; `p1` and `nCount` are the loop-carried variables. -/
def edgeLoop (G : Collab) (pt : AcGePoint3d) (lineseg3d : AcGeLineSeg3d) (bAdd : Bool)
    (pt3dArr : List AcGePoint3d) : Nat → Nat → AcGePoint3d → Nat →
    Option (Bool × List AcGePoint3d)
  | 0, _, _, nCount =>
    if nCount % 2 = 0 then leave bAdd pt3dArr false else leave bAdd pt3dArr true
  | k + 1, i, p1, nCount =>
    match pt3dArr[i]? with
    | none => none
    | some v =>
      let p2 := setZ0 v
      if G.isEqualTo pt p1 tol then leave bAdd pt3dArr true
      else if G.isOn ⟨p1, p2⟩ pt tol then leave bAdd pt3dArr true
      else edgeLoop G pt lineseg3d bAdd pt3dArr k (i + 1) p2
        (nCount + crossing G lineseg3d p1 p2)

/-! ## The function -/

/-- The function `IsPtInArea(pt, pt3dArr)`: the returned boolean and the array after the
call, or `none` if an array access was out of bounds. -/
def IsPtInArea (G : Collab) (pt : AcGePoint3d) (pt3dArr : List AcGePoint3d) :
    Option (Bool × List AcGePoint3d) :=
  let iLen := pt3dArr.length
  if iLen < 3 then some (false, pt3dArr)
  else
    match pt3dArr[0]? with
    | none => none
    | some v0 =>
      match boxLoop pt3dArr (iLen - 1) 1 (boxInit v0) with
      | none => none
      | some b =>
        if boxReject G pt b then some (false, pt3dArr)
        else
          let pt0 := setZ0 pt
          let xpt : AcGePoint3d := ⟨b.dblMaxX + 10, pt0.y, pt0.z⟩
          let lineseg3d : AcGeLineSeg3d := ⟨pt0, xpt⟩
          let p1 := setZ0 v0
          match pt3dArr[iLen - 1]? with
          | none => none
          | some vLast =>
            if !G.isEqualTo vLast p1 tol then
              edgeLoop G pt0 lineseg3d true (pt3dArr ++ [p1]) ((iLen + 1) - 1) 1 p1 0
            else
              edgeLoop G pt0 lineseg3d false pt3dArr (iLen - 1) 1 p1 0

/-- Two calls in a row on the same polygon object with the same query point: the second
call sees the array as the first call left it. -/
def callTwice (G : Collab) (pt : AcGePoint3d) (pt3dArr : List AcGePoint3d) :
    Option ((Bool × Bool) × List AcGePoint3d) :=
  match IsPtInArea G pt pt3dArr with
  | none => none
  | some (r1, a1) =>
    match IsPtInArea G pt a1 with
    | none => none
    | some (r2, a2) => some ((r1, r2), a2)

/-! ## Reference collaborators -/

/-- Squared Euclidean distance of two points. -/
def dist2 (a b : AcGePoint3d) : ℚ :=
  (a.x - b.x) ^ 2 + (a.y - b.y) ^ 2 + (a.z - b.z) ^ 2

/-- The point of the segment `a b` nearest to `p`: the orthogonal projection of `p` on the
line, clamped to the segment. -/
def nearestOn (a b p : AcGePoint3d) : AcGePoint3d :=
  let len2 := dist2 b a
  if len2 = 0 then a
  else
    let t := ((p.x - a.x) * (b.x - a.x) + (p.y - a.y) * (b.y - a.y)
      + (p.z - a.z) * (b.z - a.z)) / len2
    let c := max 0 (min 1 t)
    ⟨a.x + c * (b.x - a.x), a.y + c * (b.y - a.y), a.z + c * (b.z - a.z)⟩

/-- Squared distance from `p` to the segment `a b`. -/
def segDist2 (a b p : AcGePoint3d) : ℚ := dist2 p (nearestOn a b p)

/-- Modelled from the spec: `Compfloat` is missing from the source file. Section 2 describes
it as a three-way comparator (less / equal / greater) with an absolute tolerance, section 3
gives the tolerance the magnitude 0.01 and section 4.1 step 3 says that values within the
tolerance are not rejected. -/
def refCompfloat (a b : ℚ) : Int :=
  if b + 1 / 100 < a then 1 else if a < b - 1 / 100 then -1 else 0

/-- Modelled from the spec: `AcGePoint3d::isEqualTo` is missing from the source file.
Section 6 asks for point equality within an absolute tolerance, with absolute distance as
the tolerance semantics: the distance is at most `equalPoint`. -/
def refIsEqualTo (a b : AcGePoint3d) (t : AcGeTol) : Bool :=
  decide (dist2 a b ≤ t.equalPoint ^ 2)

/-- Modelled from the spec: `AcGeLineSeg3d::isOn` is missing from the source file.
Section 6 asks for point-on-segment membership within an absolute tolerance, end points
included: the distance to the segment is at most `equalPoint`. -/
def refIsOn (s : AcGeLineSeg3d) (p : AcGePoint3d) (t : AcGeTol) : Bool :=
  decide (segDist2 s.startPoint s.endPoint p ≤ t.equalPoint ^ 2)

/-- Modelled from the spec: `AcGeLineSeg3d::intersectWith` is missing from the source file.
Exact intersection of two segments of the plane `z = 0` (every segment that `IsPtInArea`
builds lies in it): the single common point of two non-parallel segments, end points
included; parallel segments report no intersection. The tolerance argument is not used:
this is the model without slack. `tolIntersectWith` is the model that uses the tolerance,
and statements that depend on near misses are made for both. -/
def refIntersectWith (s1 s2 : AcGeLineSeg3d) (_t : AcGeTol) : Option AcGePoint3d :=
  let d1x := s1.endPoint.x - s1.startPoint.x
  let d1y := s1.endPoint.y - s1.startPoint.y
  let d2x := s2.endPoint.x - s2.startPoint.x
  let d2y := s2.endPoint.y - s2.startPoint.y
  let wx := s2.startPoint.x - s1.startPoint.x
  let wy := s2.startPoint.y - s1.startPoint.y
  let den := d1x * d2y - d1y * d2x
  if den = 0 then none
  else
    let t := (wx * d2y - wy * d2x) / den
    let u := (wx * d1y - wy * d1x) / den
    if 0 ≤ t ∧ t ≤ 1 ∧ 0 ≤ u ∧ u ≤ 1 then
      some ⟨s1.startPoint.x + t * d1x, s1.startPoint.y + t * d1y, 0⟩
    else none

/-- The reference collaborators, all with the same absolute tolerance. -/
def refCollab : Collab := ⟨refCompfloat, refIsEqualTo, refIsOn, refIntersectWith⟩

/-! ## Polygons of the scenarios -/

/-- The open square `[(0,0), (10,0), (10,10), (0,10)]`. -/
def square : List AcGePoint3d := [⟨0, 0, 0⟩, ⟨10, 0, 0⟩, ⟨10, 10, 0⟩, ⟨0, 10, 0⟩]

/-- The notched polygon `[(0,0), (4,0), (4,4), (2,2), (0,4)]`. -/
def notched : List AcGePoint3d :=
  [⟨0, 0, 0⟩, ⟨4, 0, 0⟩, ⟨4, 4, 0⟩, ⟨2, 2, 0⟩, ⟨0, 4, 0⟩]

/-- A polygon with a wedge that opens to the right: from the first vertex `(0, 0, 0)` the
outline runs steeply down to `(1, -10)`, around the left side, and steeply back from
`(1, 10)` to the last vertex `(0, 0.008, z)`, which lies 0.008 above the first vertex in the
plane; `z` is its height. -/
def wedge (z : ℚ) : List AcGePoint3d :=
  [⟨0, 0, 0⟩, ⟨1, -10, 0⟩, ⟨-10, -10, 0⟩, ⟨-10, 10, 0⟩, ⟨1, 10, 0⟩, ⟨0, 8 / 1000, z⟩]

/-- A query point inside the wedge opening, 0.0095 to the right of the middle of the gap
between the last and the first vertex of `wedge`, and farther than 0.01 from both. The ray
towards +X runs away from the gap and meets no edge. -/
def wedgeQuery : AcGePoint3d := ⟨95 / 10000, 4 / 1000, 0⟩

/-! ## List form of the two loops -/

/-- The edge walk as a recursion over the vertices still to visit. -/
def scan (G : Collab) (pt : AcGePoint3d) (lineseg3d : AcGeLineSeg3d) :
    AcGePoint3d → List AcGePoint3d → Nat → Bool
  | _, [], nCount => decide (nCount % 2 ≠ 0)
  | p1, v :: rest, nCount =>
    if G.isEqualTo pt p1 tol then true
    else if G.isOn ⟨p1, setZ0 v⟩ pt tol then true
    else scan G pt lineseg3d (setZ0 v) rest (nCount + crossing G lineseg3d p1 (setZ0 v))

/-- The bounding box of a non-empty vertex list, as the first loop computes it. -/
def boxOf (v0 : AcGePoint3d) (rest : List AcGePoint3d) : Box :=
  rest.foldl boxStep (boxInit v0)

/-- The last vertex of the non-empty list `v0 :: rest`. -/
def lastOf : AcGePoint3d → List AcGePoint3d → AcGePoint3d
  | v, [] => v
  | _, w :: rest => lastOf w rest

/-- The vertices `pt3dArr[1] .. pt3dArr[iLen - 1]` that the second loop reads, after the
closure step of lines 55-62. -/
def walked (G : Collab) (v0 : AcGePoint3d) (rest : List AcGePoint3d) : List AcGePoint3d :=
  if G.isEqualTo (lastOf v0 rest) (setZ0 v0) tol then rest else rest ++ [setZ0 v0]

/-- The ray `lineseg3d` of lines 41-46 for the query point `pt` and the box `b`, in exact
arithmetic: the sum `dblMaxX + 10.0` of line 44 is taken without rounding, like every other
`double` operation of the embedding. `rayDouble` is the same ray with the sum rounded as a
`double` stores it; the two differ only when `dblMaxX + 10` is not a `double` value. -/
def ray (pt : AcGePoint3d) (b : Box) : AcGeLineSeg3d :=
  ⟨setZ0 pt, ⟨b.dblMaxX + 10, (setZ0 pt).y, (setZ0 pt).z⟩⟩

/-- The boolean that `IsPtInArea` returns, written over the list of vertices. -/
def result (G : Collab) (pt : AcGePoint3d) : List AcGePoint3d → Bool
  | [] => false
  | v0 :: rest =>
    if (v0 :: rest).length < 3 then false
    else if boxReject G pt (boxOf v0 rest) then false
    else scan G (setZ0 pt) (ray pt (boxOf v0 rest)) (setZ0 v0) (walked G v0 rest) 0

/-- The edges `(p1, p2)` that the second loop builds when it starts with `p1` and reads the
vertices of the list one after the other. -/
def edgesFrom : AcGePoint3d → List AcGePoint3d → List AcGeLineSeg3d
  | _, [] => []
  | p1, v :: rest => ⟨p1, setZ0 v⟩ :: edgesFrom (setZ0 v) rest

/-- The two short-circuit tests of one iteration (lines 73 and 83) for the edge `e`. -/
def hit (G : Collab) (pt : AcGePoint3d) (e : AcGeLineSeg3d) : Bool :=
  G.isEqualTo pt e.startPoint tol || G.isOn e pt tol

/-- Number of counted crossings of the ray with a list of edges. -/
def crossings (G : Collab) (lineseg3d : AcGeLineSeg3d) (es : List AcGeLineSeg3d) : Nat :=
  (es.map (fun e => crossing G lineseg3d e.startPoint e.endPoint)).sum

/-- The point `(x, y)` lies in the box, borders included. -/
def Box.Holds (b : Box) (x y : ℚ) : Prop :=
  b.dblMinX ≤ x ∧ x ≤ b.dblMaxX ∧ b.dblMinY ≤ y ∧ y ≤ b.dblMaxY

/-- The comparator never reports "greater" for `a ≤ b + e` and never reports "less" for
`b - e ≤ a`: it is a three-way comparison with slack `e`. -/
def CompfloatSlack (G : Collab) (e : ℚ) : Prop :=
  ∀ a b : ℚ, (a ≤ b + e → G.Compfloat a b ≤ 0) ∧ (b - e ≤ a → 0 ≤ G.Compfloat a b)

/-- Midpoint of two points. -/
def midpoint3d (a b : AcGePoint3d) : AcGePoint3d :=
  ⟨(a.x + b.x) / 2, (a.y + b.y) / 2, (a.z + b.z) / 2⟩

/-- The pair `(a, b)` is an edge of the closed polygon `arr`: two consecutive vertices, or
the last vertex followed by the first. -/
def IsEdge (arr : List AcGePoint3d) (a b : AcGePoint3d) : Prop :=
  (∃ l1 l2 : List AcGePoint3d, arr = l1 ++ a :: b :: l2)
    ∨ (∃ rest : List AcGePoint3d, arr = b :: rest ∧ a = lastOf b rest)

/-- Translation of a point by `(dx, dy)` in the XY plane. -/
def translate (dx dy : ℚ) (p : AcGePoint3d) : AcGePoint3d := ⟨p.x + dx, p.y + dy, p.z⟩

/-- The collaborators do not see a translation by `(dx, dy)` of all their arguments: the
comparator and the two tests give the same answer, and the intersection point moves with
the segments. -/
def TranslationInvariant (G : Collab) (dx dy : ℚ) : Prop :=
  (∀ a b : ℚ, G.Compfloat (a + dx) (b + dx) = G.Compfloat a b)
    ∧ (∀ a b : ℚ, G.Compfloat (a + dy) (b + dy) = G.Compfloat a b)
    ∧ (∀ a b : AcGePoint3d,
        G.isEqualTo (translate dx dy a) (translate dx dy b) tol = G.isEqualTo a b tol)
    ∧ (∀ a b p : AcGePoint3d,
        G.isOn ⟨translate dx dy a, translate dx dy b⟩ (translate dx dy p) tol
          = G.isOn ⟨a, b⟩ p tol)
    ∧ (∀ a b c d : AcGePoint3d,
        G.intersectWith ⟨translate dx dy a, translate dx dy b⟩
            ⟨translate dx dy c, translate dx dy d⟩ tol
          = (G.intersectWith ⟨a, b⟩ ⟨c, d⟩ tol).map (translate dx dy))

/-- Translation of a bounding box by `(dx, dy)`. -/
def Box.shift (dx dy : ℚ) (b : Box) : Box :=
  ⟨b.dblMaxX + dx, b.dblMinX + dx, b.dblMaxY + dy, b.dblMinY + dy⟩

/-- Squared distance from the point `(x, y)` to the closed square region `[0, 10] × [0, 10]`:
the excess of each coordinate over the interval `[0, 10]`, squared and added. -/
def squareDist2 (x y : ℚ) : ℚ :=
  (max 0 (max (-x) (x - 10))) ^ 2 + (max 0 (max (-y) (y - 10))) ^ 2

/-! ## Definitions for the structure of the walk -/

/-- The flag `bAdd` after lines 55-62, for the array `v0 :: rest`. -/
def bAddOf (G : Collab) (v0 : AcGePoint3d) (rest : List AcGePoint3d) : Bool :=
  !G.isEqualTo (lastOf v0 rest) (setZ0 v0) tol

/-- The edges of the walk when the first vertex is appended: every pair of consecutive
vertices and the closing edge from the last vertex to the first, all flattened. -/
def cycleEdges (v0 : AcGePoint3d) (rest : List AcGePoint3d) : List AcGeLineSeg3d :=
  edgesFrom (setZ0 v0) (rest ++ [setZ0 v0])

/-- The crossings counted on all edges of the walk are odd in number. -/
def oddCrossings (G : Collab) (lineseg3d : AcGeLineSeg3d) (es : List AcGeLineSeg3d) : Bool :=
  decide (crossings G lineseg3d es % 2 ≠ 0)

/-! ## The function with a log of its array mutations -/

/-- The two calls that change the array: `append` (line 59) and `removeLast` (lines 76, 86,
117). -/
inductive Mutation where
  | append
  | removeLast
  deriving DecidableEq

/-- The function `leave` with the log: `removeLast` is logged when it is called. -/
def leaveLog (bAdd : Bool) (pt3dArr : List AcGePoint3d) (r : Bool) (log : List Mutation) :
    Option (Bool × List AcGePoint3d × List Mutation) :=
  if bAdd then
    match removeLast pt3dArr with
    | none => none
    | some a => some (r, a, log ++ [Mutation.removeLast])
  else some (r, pt3dArr, log)

/-- The loop `edgeLoop` with the log threaded through. -/
def edgeLoopLog (G : Collab) (pt : AcGePoint3d) (lineseg3d : AcGeLineSeg3d) (bAdd : Bool)
    (pt3dArr : List AcGePoint3d) (log : List Mutation) : Nat → Nat → AcGePoint3d → Nat →
    Option (Bool × List AcGePoint3d × List Mutation)
  | 0, _, _, nCount =>
    if nCount % 2 = 0 then leaveLog bAdd pt3dArr false log else leaveLog bAdd pt3dArr true log
  | k + 1, i, p1, nCount =>
    match pt3dArr[i]? with
    | none => none
    | some v =>
      let p2 := setZ0 v
      if G.isEqualTo pt p1 tol then leaveLog bAdd pt3dArr true log
      else if G.isOn ⟨p1, p2⟩ pt tol then leaveLog bAdd pt3dArr true log
      else edgeLoopLog G pt lineseg3d bAdd pt3dArr log k (i + 1) p2
        (nCount + crossing G lineseg3d p1 p2)

/-- The function `IsPtInArea` with the log of the calls of `append` and `removeLast`, in the
order in which they happen. Array accesses out of bounds and `removeLast` on an empty array
give `none`, as in `IsPtInArea`. -/
def IsPtInAreaLog (G : Collab) (pt : AcGePoint3d) (pt3dArr : List AcGePoint3d) :
    Option (Bool × List AcGePoint3d × List Mutation) :=
  let iLen := pt3dArr.length
  if iLen < 3 then some (false, pt3dArr, [])
  else
    match pt3dArr[0]? with
    | none => none
    | some v0 =>
      match boxLoop pt3dArr (iLen - 1) 1 (boxInit v0) with
      | none => none
      | some b =>
        if boxReject G pt b then some (false, pt3dArr, [])
        else
          let pt0 := setZ0 pt
          let xpt : AcGePoint3d := ⟨b.dblMaxX + 10, pt0.y, pt0.z⟩
          let lineseg3d : AcGeLineSeg3d := ⟨pt0, xpt⟩
          let p1 := setZ0 v0
          match pt3dArr[iLen - 1]? with
          | none => none
          | some vLast =>
            if !G.isEqualTo vLast p1 tol then
              edgeLoopLog G pt0 lineseg3d true (pt3dArr ++ [p1]) [Mutation.append]
                ((iLen + 1) - 1) 1 p1 0
            else
              edgeLoopLog G pt0 lineseg3d false pt3dArr [] (iLen - 1) 1 p1 0

/-! ## More polygons -/

/-- A triangle at height `z = 5`, explicitly closed: the last vertex is the first vertex
again, with the same x, y and z. -/
def raisedClosed : List AcGePoint3d := [⟨0, 0, 5⟩, ⟨10, 0, 5⟩, ⟨10, 10, 5⟩, ⟨0, 0, 5⟩]

/-- The edges that the second loop walks: every pair of consecutive vertices, and the
closing edge from the last vertex to the first when the closure step appends the first
vertex (`bAdd`). -/
def walkEdges (G : Collab) (v0 : AcGePoint3d) (rest : List AcGePoint3d) : List AcGeLineSeg3d :=
  if bAddOf G v0 rest then cycleEdges v0 rest else edgesFrom (setZ0 v0) rest

/-- A query point 0.0097 to the right of the middle of the gap between the last and the
first vertex of `wedge`. -/
def wedgeQuery2 : AcGePoint3d := ⟨97 / 10000, 4 / 1000, 0⟩

/-- The calls of `append` and `removeLast` that one call of `IsPtInArea` makes, in order:
both, once each, when the closure step is reached and sets `bAdd`; none otherwise. -/
def mutations (G : Collab) (pt : AcGePoint3d) : List AcGePoint3d → List Mutation
  | [] => []
  | v0 :: rest =>
    if (v0 :: rest).length < 3 then []
    else if boxReject G pt (boxOf v0 rest) then []
    else if bAddOf G v0 rest then [Mutation.append, Mutation.removeLast]
    else []

/-! ## A tolerance-aware intersection test, and the sum of line 44 as a `double` -/

/-- The point of the segment `s` at the parameter `c` (`c = 0` start point, `c = 1` end
point). -/
def along (s : AcGeLineSeg3d) (c : ℚ) : AcGePoint3d :=
  ⟨s.startPoint.x + c * (s.endPoint.x - s.startPoint.x),
   s.startPoint.y + c * (s.endPoint.y - s.startPoint.y),
   s.startPoint.z + c * (s.endPoint.z - s.startPoint.z)⟩

/-- The intersection test reports a point only for two segments that come within 0.01 of
each other in the XY plane: some point of the first and some point of the second are at
most 0.01 apart. -/
def IntersectSound (G : Collab) : Prop :=
  ∀ (s1 s2 : AcGeLineSeg3d) (ipt : AcGePoint3d), G.intersectWith s1 s2 tol = some ipt →
    ∃ c d : ℚ, 0 ≤ c ∧ c ≤ 1 ∧ 0 ≤ d ∧ d ≤ 1
      ∧ dist2 (setZ0 (along s1 c)) (setZ0 (along s2 d)) ≤ (1 / 100) ^ 2

/-- Modelled from the spec: `AcGeLineSeg3d::intersectWith` is missing from the source file.
A second model, which uses the tolerance that line 93 passes: section 6 asks for the
intersection within an absolute tolerance, end-point touching included. The exact common
point when there is one; otherwise an end point of one segment that lies within the
tolerance of the other segment; otherwise no intersection. -/
def tolIntersectWith (s1 s2 : AcGeLineSeg3d) (t : AcGeTol) : Option AcGePoint3d :=
  match refIntersectWith s1 s2 t with
  | some p => some p
  | none =>
    if segDist2 s1.startPoint s1.endPoint s2.startPoint ≤ t.equalPoint ^ 2 then
      some s2.startPoint
    else if segDist2 s1.startPoint s1.endPoint s2.endPoint ≤ t.equalPoint ^ 2 then
      some s2.endPoint
    else if segDist2 s2.startPoint s2.endPoint s1.startPoint ≤ t.equalPoint ^ 2 then
      some s1.startPoint
    else if segDist2 s2.startPoint s2.endPoint s1.endPoint ≤ t.equalPoint ^ 2 then
      some s1.endPoint
    else none

/-- The reference collaborators with the tolerance-aware intersection test. -/
def tolCollab : Collab := ⟨refCompfloat, refIsEqualTo, refIsOn, tolIntersectWith⟩

/-- The value that a C++ `double` expression stores for the exact result `x`: `x` rounded to
the nearest number with a 53-bit significand, ties to the even significand (IEEE 754
binary64, round to nearest even). Overflow and subnormal numbers are outside the model. -/
def roundDouble (x : ℚ) : ℚ :=
  if x = 0 then 0
  else
    let e : ℤ := Int.log 2 |x|
    let ulp : ℚ := (2 : ℚ) ^ (e - 52)
    let q : ℚ := |x| / ulp
    let f : ℤ := ⌊q⌋
    let n : ℤ :=
      if q - f < 1 / 2 then f
      else if 1 / 2 < q - f then f + 1
      else if f % 2 = 0 then f else f + 1
    (if x < 0 then -1 else 1) * n * ulp

/-- The ray of lines 41-46 with the sum `dblMaxX + 10.0` of line 44 as a `double` stores
it. (`ray` takes the sum exactly.) -/
def rayDouble (pt : AcGePoint3d) (b : Box) : AcGeLineSeg3d :=
  ⟨setZ0 pt, ⟨roundDouble (b.dblMaxX + 10), (setZ0 pt).y, (setZ0 pt).z⟩⟩

/-- A triangle with coordinates of magnitude `10 ^ 18`; all coordinates are `double`
values. -/
def hugeTriangle : List AcGePoint3d :=
  [⟨0, 0, 0⟩, ⟨10 ^ 18, 0, 0⟩, ⟨10 ^ 18, 10 ^ 18, 0⟩]

/-! ## Theorems -/

theorem boxLoop_eq (arr : List AcGePoint3d) :
    ∀ (k i : Nat) (b : Box), i + k = arr.length →
      boxLoop arr k i b = some ((arr.drop i).foldl boxStep b) := by
  intro k
  induction k with
  | zero =>
    intro i b h
    have : arr.drop i = [] := List.drop_eq_nil_of_le (by omega)
    simp [boxLoop, this]
  | succ k ih =>
    intro i b h
    have hi : i < arr.length := by omega
    have hd : arr.drop i = arr[i] :: arr.drop (i + 1) := List.drop_eq_getElem_cons hi
    simp only [boxLoop, List.getElem?_eq_getElem hi]
    rw [ih (i + 1) _ (by omega), hd, List.foldl_cons]

theorem leave_true_append (arr : List AcGePoint3d) (p : AcGePoint3d) (r : Bool) :
    leave true (arr ++ [p]) r = some (r, arr) := by
  have h : ∀ l : List AcGePoint3d, l = arr ++ [p] → leave true l r = some (r, arr) := by
    intro l hl
    cases l with
    | nil => simp at hl
    | cons a t => simp [leave, removeLast, hl]
  exact h _ rfl

theorem edgeLoop_eq (G : Collab) (pt : AcGePoint3d) (ls : AcGeLineSeg3d) (bAdd : Bool)
    (arr orig : List AcGePoint3d)
    (hleave : ∀ r, leave bAdd arr r = some (r, orig)) :
    ∀ (k i : Nat) (p1 : AcGePoint3d) (n : Nat), i + k = arr.length →
      edgeLoop G pt ls bAdd arr k i p1 n = some (scan G pt ls p1 (arr.drop i) n, orig) := by
  intro k
  induction k with
  | zero =>
    intro i p1 n h
    have : arr.drop i = [] := List.drop_eq_nil_of_le (by omega)
    by_cases hn : n % 2 = 0 <;> simp [edgeLoop, scan, this, hleave, hn]
  | succ k ih =>
    intro i p1 n h
    have hi : i < arr.length := by omega
    have hd : arr.drop i = arr[i] :: arr.drop (i + 1) := List.drop_eq_getElem_cons hi
    simp only [edgeLoop, List.getElem?_eq_getElem hi]
    rw [hd]
    simp only [scan]
    by_cases h1 : G.isEqualTo pt p1 tol = true
    · simp [h1, hleave]
    · by_cases h2 : G.isOn ⟨p1, setZ0 arr[i]⟩ pt tol = true
      · simp [h1, h2, hleave]
      · simp only [h1, h2, if_false, Bool.false_eq_true]
        exact ih (i + 1) _ _ (by omega)

theorem getElem?_lastOf (v0 : AcGePoint3d) (rest : List AcGePoint3d) :
    (v0 :: rest)[rest.length]? = some (lastOf v0 rest) := by
  induction rest generalizing v0 with
  | nil => simp [lastOf]
  | cons w rest ih => simpa [lastOf] using ih w

/-- The call never fails, leaves the array as it found it, and returns `result`. -/
theorem IsPtInArea_eq (G : Collab) (pt : AcGePoint3d) (arr : List AcGePoint3d) :
    IsPtInArea G pt arr = some (result G pt arr, arr) := by
  cases arr with
  | nil => simp [IsPtInArea, result]
  | cons v0 rest =>
    by_cases hlen : (v0 :: rest).length < 3
    · have hlen2 : rest.length + 1 < 3 := by simpa using hlen
      simp [IsPtInArea, result, hlen2]
    · have hbox : boxLoop (v0 :: rest) ((v0 :: rest).length - 1) 1 (boxInit v0)
          = some (boxOf v0 rest) := by
        rw [boxLoop_eq (v0 :: rest) _ 1 _ (by simp; omega)]
        simp [boxOf]
      have hlast : (v0 :: rest)[(v0 :: rest).length - 1]? = some (lastOf v0 rest) := by
        simpa using getElem?_lastOf v0 rest
      unfold IsPtInArea result
      simp only [hlen, if_false, List.getElem?_cons_zero, hbox, hlast]
      by_cases hr : boxReject G pt (boxOf v0 rest) = true
      · simp [hr]
      · simp only [hr, if_false, Bool.false_eq_true]
        by_cases hc : G.isEqualTo (lastOf v0 rest) (setZ0 v0) tol = true
        · simp only [hc, Bool.not_true, if_false, Bool.false_eq_true, if_true, walked, ray]
          rw [edgeLoop_eq G _ _ false (v0 :: rest) (v0 :: rest) (fun r => by simp [leave])
            _ 1 _ _ (by simp; omega)]
          simp
        · simp only [hc, Bool.not_false, if_true, if_false, Bool.false_eq_true, walked, ray]
          rw [edgeLoop_eq G _ _ true (v0 :: rest ++ [setZ0 v0]) (v0 :: rest)
            (fun r => leave_true_append _ _ r) _ 1 _ _ (by simp; omega)]
          simp

/-- The edge walk returns true when some edge passes a short-circuit test, and the parity
of the counted crossings of all edges otherwise, wherever the matching edge is. -/
theorem scan_eq (G : Collab) (pt : AcGePoint3d) (ls : AcGeLineSeg3d) :
    ∀ (l : List AcGePoint3d) (p1 : AcGePoint3d) (n : Nat),
      scan G pt ls p1 l n = ((edgesFrom p1 l).any (hit G pt)
        || decide ((n + crossings G ls (edgesFrom p1 l)) % 2 ≠ 0)) := by
  intro l
  induction l with
  | nil => intro p1 n; simp [scan, edgesFrom, crossings]
  | cons v rest ih =>
    intro p1 n
    simp only [scan, edgesFrom, List.any_cons, hit]
    by_cases h1 : G.isEqualTo pt p1 tol = true
    · simp [h1]
    · by_cases h2 : G.isOn ⟨p1, setZ0 v⟩ pt tol = true
      · simp [h1, h2]
      · simp only [h1, h2, if_false, Bool.false_eq_true, Bool.or_self, Bool.false_or]
        rw [ih]
        simp [crossings, hit, Nat.add_assoc]

theorem scan_true_of_hit (G : Collab) (pt : AcGePoint3d) (ls : AcGeLineSeg3d)
    (l : List AcGePoint3d) (p1 : AcGePoint3d) (n : Nat) (e : AcGeLineSeg3d)
    (he : e ∈ edgesFrom p1 l) (hh : hit G pt e = true) : scan G pt ls p1 l n = true := by
  rw [scan_eq]
  have : (edgesFrom p1 l).any (hit G pt) = true := List.any_eq_true.mpr ⟨e, he, hh⟩
  simp [this]

/-! ### Bounding box -/

theorem boxStep_bounds (b : Box) (v : AcGePoint3d) :
    (boxStep b v).dblMinX ≤ b.dblMinX ∧ b.dblMaxX ≤ (boxStep b v).dblMaxX
      ∧ (boxStep b v).dblMinY ≤ b.dblMinY ∧ b.dblMaxY ≤ (boxStep b v).dblMaxY
      ∧ (boxStep b v).Holds v.x v.y := by
  simp only [boxStep, Box.Holds]
  refine ⟨?_, ?_, ?_, ?_, ?_, ?_, ?_, ?_⟩ <;> split_ifs <;> linarith

theorem foldl_boxStep_mono (l : List AcGePoint3d) :
    ∀ b : Box, (l.foldl boxStep b).dblMinX ≤ b.dblMinX ∧ b.dblMaxX ≤ (l.foldl boxStep b).dblMaxX
      ∧ (l.foldl boxStep b).dblMinY ≤ b.dblMinY ∧ b.dblMaxY ≤ (l.foldl boxStep b).dblMaxY := by
  induction l with
  | nil => intro b; simp
  | cons w l ih =>
    intro b
    obtain ⟨h1, h2, h3, h4⟩ := ih (boxStep b w)
    obtain ⟨g1, g2, g3, g4, _⟩ := boxStep_bounds b w
    simp only [List.foldl_cons]
    exact ⟨h1.trans g1, g2.trans h2, h3.trans g3, g4.trans h4⟩

theorem foldl_boxStep_holds (l : List AcGePoint3d) :
    ∀ (b : Box) (x y : ℚ), (b.Holds x y ∨ ∃ v ∈ l, v.x = x ∧ v.y = y) →
      (l.foldl boxStep b).Holds x y := by
  induction l with
  | nil =>
    intro b x y h
    rcases h with h | ⟨v, hv, _⟩
    · simpa using h
    · simp at hv
  | cons w l ih =>
    intro b x y h
    simp only [List.foldl_cons]
    apply ih
    obtain ⟨g1, g2, g3, g4, g5⟩ := boxStep_bounds b w
    rcases h with h | ⟨v, hv, hx, hy⟩
    · left
      obtain ⟨k1, k2, k3, k4⟩ := h
      exact ⟨g1.trans k1, k2.trans g2, g3.trans k3, k4.trans g4⟩
    · rcases List.mem_cons.mp hv with rfl | hv
      · left
        rw [← hx, ← hy]
        exact g5
      · right
        exact ⟨v, hv, hx, hy⟩

/-- Every vertex lies in the bounding box that the first loop computes. -/
theorem boxOf_holds (v0 : AcGePoint3d) (rest : List AcGePoint3d) (v : AcGePoint3d)
    (hv : v ∈ v0 :: rest) : (boxOf v0 rest).Holds v.x v.y := by
  apply foldl_boxStep_holds
  rcases List.mem_cons.mp hv with rfl | hv
  · left
    simp [boxInit, Box.Holds]
  · right
    exact ⟨v, hv, rfl, rfl⟩

/-- A point within the comparator's slack of the box is not rejected. -/
theorem boxReject_false (G : Collab) (e : ℚ) (hG : CompfloatSlack G e) (b : Box)
    (pt : AcGePoint3d)
    (h : b.dblMinX - e ≤ pt.x ∧ pt.x ≤ b.dblMaxX + e ∧ b.dblMinY - e ≤ pt.y
      ∧ pt.y ≤ b.dblMaxY + e) : boxReject G pt b = false := by
  obtain ⟨h1, h2, h3, h4⟩ := h
  have a1 := (hG pt.x b.dblMaxX).1 h2
  have a2 := (hG pt.x b.dblMinX).2 h1
  have a3 := (hG pt.y b.dblMaxY).1 h4
  have a4 := (hG pt.y b.dblMinY).2 h3
  simp only [boxReject, Bool.or_eq_false_iff, decide_eq_false_iff_not, not_lt, gt_iff_lt]
  exact ⟨⟨⟨a1, a2⟩, a3⟩, a4⟩

/-! ### Edges of the walk -/

theorem setZ0_setZ0 (p : AcGePoint3d) : setZ0 (setZ0 p) = setZ0 p := rfl

theorem lastOf_mem (rest : List AcGePoint3d) :
    ∀ v0 : AcGePoint3d, lastOf v0 rest ∈ v0 :: rest := by
  induction rest with
  | nil => intro v0; simp [lastOf]
  | cons w rest ih => intro v0; simpa [lastOf] using Or.inr (List.mem_cons.mp (ih w))

/-- Every vertex but the last starts an edge of the walk. -/
theorem vertex_starts_edge (rest : List AcGePoint3d) :
    ∀ (v0 v : AcGePoint3d), v ∈ v0 :: rest →
      v = lastOf v0 rest ∨ ∃ e ∈ edgesFrom (setZ0 v0) rest, e.startPoint = setZ0 v := by
  induction rest with
  | nil => intro v0 v hv; left; simpa [lastOf] using hv
  | cons w rest ih =>
    intro v0 v hv
    rcases List.mem_cons.mp hv with rfl | hv
    · right
      exact ⟨⟨setZ0 v, setZ0 w⟩, by simp [edgesFrom], rfl⟩
    · rcases ih w v hv with h | ⟨e, he, hs⟩
      · left; simpa [lastOf] using h
      · right
        exact ⟨e, by simp [edgesFrom, he], hs⟩

/-- After the first vertex was appended, every vertex starts an edge of the walk. -/
theorem vertex_starts_edge_append (x : AcGePoint3d) (rest : List AcGePoint3d) :
    ∀ (v0 v : AcGePoint3d), v ∈ v0 :: rest →
      ∃ e ∈ edgesFrom (setZ0 v0) (rest ++ [x]), e.startPoint = setZ0 v := by
  induction rest with
  | nil =>
    intro v0 v hv
    have : v = v0 := by simpa using hv
    subst this
    exact ⟨⟨setZ0 v, setZ0 x⟩, by simp [edgesFrom], rfl⟩
  | cons w rest ih =>
    intro v0 v hv
    rcases List.mem_cons.mp hv with rfl | hv
    · exact ⟨⟨setZ0 v, setZ0 w⟩, by simp [edgesFrom], rfl⟩
    · obtain ⟨e, he, hs⟩ := ih w v hv
      exact ⟨e, by simp [edgesFrom, he], hs⟩

/-- Two consecutive vertices form an edge of the walk. -/
theorem consecutive_edge (a b : AcGePoint3d) (l2 ext : List AcGePoint3d)
    (l1 : List AcGePoint3d) :
    ∀ (v0 : AcGePoint3d) (rest : List AcGePoint3d), v0 :: rest = l1 ++ a :: b :: l2 →
      (⟨setZ0 a, setZ0 b⟩ : AcGeLineSeg3d) ∈ edgesFrom (setZ0 v0) (rest ++ ext) := by
  induction l1 with
  | nil =>
    intro v0 rest h
    simp only [List.nil_append, List.cons.injEq] at h
    obtain ⟨rfl, rfl⟩ := h
    simp [edgesFrom]
  | cons c l1 ih =>
    intro v0 rest h
    simp only [List.cons_append, List.cons.injEq] at h
    obtain ⟨rfl, hrest⟩ := h
    cases rest with
    | nil => simp at hrest
    | cons w r =>
      have := ih w r hrest
      simp [edgesFrom, this]

/-- After the first vertex was appended, the closing edge is an edge of the walk. -/
theorem closing_edge (x : AcGePoint3d) (rest : List AcGePoint3d) :
    ∀ v0 : AcGePoint3d,
      (⟨setZ0 (lastOf v0 rest), setZ0 x⟩ : AcGeLineSeg3d)
        ∈ edgesFrom (setZ0 v0) (rest ++ [x]) := by
  induction rest with
  | nil => intro v0; simp [edgesFrom, lastOf]
  | cons w rest ih =>
    intro v0
    have := ih w
    simp [edgesFrom, lastOf, this]

/-- The shape of `result` for a polygon with at least three vertices. -/
theorem result_cons (G : Collab) (pt v0 : AcGePoint3d) (rest : List AcGePoint3d)
    (h3 : 3 ≤ (v0 :: rest).length) :
    result G pt (v0 :: rest) = (!boxReject G pt (boxOf v0 rest)
      && scan G (setZ0 pt) (ray pt (boxOf v0 rest)) (setZ0 v0) (walked G v0 rest) 0) := by
  have hlen : ¬ (v0 :: rest).length < 3 := by omega
  simp only [result, hlen, if_false]
  cases boxReject G pt (boxOf v0 rest) <;> simp

/-! ## Degenerate input and frame -/

/-- C1: for every polygon with 0, 1 or 2 vertices and every query point, `IsPtInArea`
returns false, without failing and without touching the array. -/
theorem C1_degenerate_false (G : Collab) (pt : AcGePoint3d) (arr : List AcGePoint3d)
    (h : arr.length < 3) : IsPtInArea G pt arr = some (false, arr) := by
  simp [IsPtInArea, h]

theorem C1_degenerate_false_witness :
    IsPtInArea refCollab ⟨0, 0, 0⟩ [⟨0, 0, 0⟩, ⟨1, 1, 0⟩] = some (false, [⟨0, 0, 0⟩, ⟨1, 1, 0⟩]) :=
  C1_degenerate_false refCollab ⟨0, 0, 0⟩ [⟨0, 0, 0⟩, ⟨1, 1, 0⟩] (by decide)

/-- C2: for every polygon and every query point the call ends with the vertex sequence it
started with, whichever return path is taken, and a second call with the same query on the
same polygon object returns the same boolean (and again leaves the sequence unchanged). -/
theorem C2_no_mutation (G : Collab) (pt : AcGePoint3d) (arr : List AcGePoint3d) :
    ∃ r : Bool, IsPtInArea G pt arr = some (r, arr)
      ∧ callTwice G pt arr = some ((r, r), arr) := by
  refine ⟨result G pt arr, IsPtInArea_eq G pt arr, ?_⟩
  simp [callTwice, IsPtInArea_eq]

/-! ## Scenarios -/

/-- C5: on the open square with the reference collaborators (tolerance 0.01) the queries
(5,5) and (10,5) return true, the queries (15,5) and (-1,5) return false. -/
theorem C5_square_scenario :
    IsPtInArea refCollab ⟨5, 5, 0⟩ square = some (true, square)
      ∧ IsPtInArea refCollab ⟨10, 5, 0⟩ square = some (true, square)
      ∧ IsPtInArea refCollab ⟨15, 5, 0⟩ square = some (false, square)
      ∧ IsPtInArea refCollab ⟨-1, 5, 0⟩ square = some (false, square) := by
  simp only [IsPtInArea_eq]
  refine ⟨?_, ?_, ?_, ?_⟩ <;>
    norm_num [result, walked, ray, lastOf, square, boxOf, boxInit, boxStep, boxReject, refCollab, refCompfloat,
      refIsEqualTo, refIsOn, refIntersectWith, scan, crossing, setZ0, tol, dist2, segDist2,
      nearestOn]

/-- C10: on the notched polygon the query point (-1, 2) returns false for every cyclic
rotation of the vertex list, for every collaborator set whose comparator reports -1 as less
than 0 (the point is left of the bounding box, the edge walk is never reached). -/
theorem C10_notched_outside (G : Collab) (hcmp : G.Compfloat (-1) 0 < 0) (z : ℚ) (k : Nat) :
    IsPtInArea G ⟨-1, 2, z⟩ (notched.rotate k) = some (false, notched.rotate k) := by
  rw [IsPtInArea_eq]
  have hk : k % 5 < 5 := Nat.mod_lt _ (by decide)
  have hrot : notched.rotate k = notched.rotate (k % 5) := by
    rw [show (5 : Nat) = notched.length from rfl, List.rotate_mod]
  rw [hrot]
  congr 1
  interval_cases (k % 5) <;>
    norm_num [result, notched, List.rotate, boxOf, boxInit, boxStep, boxReject, hcmp]

theorem C10_notched_outside_witness :
    refCollab.Compfloat (-1) 0 < 0
      ∧ IsPtInArea refCollab ⟨-1, 2, 0⟩ (notched.rotate 3) = some (false, notched.rotate 3) :=
  ⟨by norm_num [refCollab, refCompfloat],
    C10_notched_outside refCollab (by norm_num [refCollab, refCompfloat]) 0 3⟩

/-! ## Boundary membership -/

/-! ### The reference collaborators meet the contracts used below -/

theorem refCollab_slack : CompfloatSlack refCollab (1 / 100) := by
  intro a b
  simp only [refCollab, refCompfloat]
  constructor
  · intro h
    have : ¬ b + 1 / 100 < a := by linarith
    simp only [this, if_false]
    split_ifs <;> decide
  · intro h
    have : ¬ a < b - 1 / 100 := by linarith
    simp only [this, if_false]
    split_ifs <;> decide

theorem refCollab_slack_zero : CompfloatSlack refCollab 0 := by
  intro a b
  constructor
  · intro h
    exact (refCollab_slack a b).1 (by linarith)
  · intro h
    exact (refCollab_slack a b).2 (by linarith)

theorem refIsEqualTo_iff (a b : AcGePoint3d) :
    refCollab.isEqualTo a b tol = true ↔ dist2 a b ≤ (1 / 100) ^ 2 := by
  simp [refCollab, refIsEqualTo, tol]

theorem refIsOn_iff (a b p : AcGePoint3d) :
    refCollab.isOn ⟨a, b⟩ p tol = true ↔ segDist2 a b p ≤ (1 / 100) ^ 2 := by
  simp [refCollab, refIsOn, tol]

theorem refCollab_refl (p : AcGePoint3d) : refCollab.isEqualTo p p tol = true := by
  rw [refIsEqualTo_iff]
  norm_num [dist2]

theorem refCollab_flat (a b : AcGePoint3d) (h : refCollab.isEqualTo a b tol = true) :
    refCollab.isEqualTo (setZ0 a) (setZ0 b) tol = true := by
  rw [refIsEqualTo_iff] at *
  simp only [dist2, setZ0] at *
  nlinarith [sq_nonneg (a.z - b.z)]

theorem refCollab_mid (a b : AcGePoint3d) (h : refCollab.isEqualTo a b tol = true) :
    refCollab.isEqualTo (midpoint3d (setZ0 a) (setZ0 b)) (setZ0 b) tol = true := by
  rw [refIsEqualTo_iff] at *
  simp only [dist2, setZ0, midpoint3d] at *
  nlinarith [sq_nonneg (a.z - b.z), sq_nonneg (a.x - b.x), sq_nonneg (a.y - b.y)]

theorem dist2_eq_zero (a b : AcGePoint3d) (h : dist2 b a = 0) : a = b := by
  simp only [dist2] at h
  have n1 := sq_nonneg (b.x - a.x)
  have n2 := sq_nonneg (b.y - a.y)
  have n3 := sq_nonneg (b.z - a.z)
  have hx : (b.x - a.x) ^ 2 = 0 := by linarith
  have hy : (b.y - a.y) ^ 2 = 0 := by linarith
  have hz : (b.z - a.z) ^ 2 = 0 := by linarith
  have hx2 : b.x - a.x = 0 := by simpa using hx
  have hy2 : b.y - a.y = 0 := by simpa using hy
  have hz2 : b.z - a.z = 0 := by simpa using hz
  cases a; cases b
  simp only [AcGePoint3d.mk.injEq] at *
  exact ⟨by linarith, by linarith, by linarith⟩

theorem nearestOn_midpoint (a b : AcGePoint3d) : nearestOn a b (midpoint3d a b) = midpoint3d a b := by
  by_cases h0 : dist2 b a = 0
  · have hab := dist2_eq_zero a b h0
    subst hab
    simp only [nearestOn, h0, if_true, midpoint3d]
    cases a
    simp only [AcGePoint3d.mk.injEq]
    exact ⟨by ring, by ring, by ring⟩
  · have ht : ((((midpoint3d a b).x - a.x) * (b.x - a.x) + ((midpoint3d a b).y - a.y) * (b.y - a.y)
        + ((midpoint3d a b).z - a.z) * (b.z - a.z)) / dist2 b a) = 1 / 2 := by
      rw [div_eq_iff h0]
      simp only [midpoint3d, dist2]
      ring
    simp only [nearestOn, h0, if_false, ht]
    have hc : max (0 : ℚ) (min 1 (1 / 2)) = 1 / 2 := by norm_num
    rw [hc]
    simp only [midpoint3d, AcGePoint3d.mk.injEq]
    exact ⟨by ring, by ring, by ring⟩

theorem refCollab_isOn_midpoint (a b : AcGePoint3d) :
    refCollab.isOn ⟨a, b⟩ (midpoint3d a b) tol = true := by
  rw [refIsOn_iff, segDist2, nearestOn_midpoint]
  norm_num [dist2]

/-- C3: for every polygon with at least 3 vertices and every vertex `v` of it, at any
index, the query at `v` returns true. The collaborators are assumed to be a comparator that
respects the order of its arguments (so it reports neither "greater" for `a ≤ b` nor "less"
for `a ≥ b`, in particular it is reflexive), and a point equality that is reflexive and is
kept by flattening both points to `z = 0`. -/
theorem C3_vertex_membership (G : Collab) (hcmp : CompfloatSlack G 0)
    (hrefl : ∀ p : AcGePoint3d, G.isEqualTo p p tol = true)
    (hflat : ∀ a b : AcGePoint3d, G.isEqualTo a b tol = true →
      G.isEqualTo (setZ0 a) (setZ0 b) tol = true)
    (arr : List AcGePoint3d) (h3 : 3 ≤ arr.length) (v : AcGePoint3d) (hv : v ∈ arr) :
    IsPtInArea G v arr = some (true, arr) := by
  rw [IsPtInArea_eq]
  suffices hres : result G v arr = true by rw [hres]
  cases arr with
  | nil => simp at h3
  | cons v0 rest =>
    rw [result_cons G v v0 rest h3]
    obtain ⟨b1, b2, b3, b4⟩ := boxOf_holds v0 rest v hv
    rw [boxReject_false G 0 hcmp _ v ⟨by linarith, by linarith, by linarith, by linarith⟩]
    simp only [Bool.not_false, Bool.true_and]
    by_cases hc : G.isEqualTo (lastOf v0 rest) (setZ0 v0) tol = true
    · simp only [walked, hc, if_true]
      rcases vertex_starts_edge rest v0 v hv with hl | ⟨e, he, hs⟩
      · cases rest with
        | nil => simp at h3
        | cons w r =>
          apply scan_true_of_hit G _ _ _ _ _ ⟨setZ0 v0, setZ0 w⟩ (by simp [edgesFrom])
          have := hflat _ _ hc
          rw [← hl, setZ0_setZ0] at this
          simp [hit, this]
      · apply scan_true_of_hit G _ _ _ _ _ e he
        simp [hit, hs, hrefl]
    · simp only [walked, hc, if_false, Bool.false_eq_true]
      obtain ⟨e, he, hs⟩ := vertex_starts_edge_append (setZ0 v0) rest v0 v hv
      apply scan_true_of_hit G _ _ _ _ _ e he
      simp [hit, hs, hrefl]

theorem C3_vertex_membership_witness :
    IsPtInArea refCollab ⟨0, 10, 0⟩ square = some (true, square) :=
  C3_vertex_membership refCollab refCollab_slack_zero refCollab_refl refCollab_flat square
    (by decide) ⟨0, 10, 0⟩ (by simp [square])

/-- C4: for every polygon with at least 3 vertices and every edge `(a, b)` of the closed
polygon (two consecutive vertices, or the last vertex and the first), the query at the
midpoint of `(a, b)` returns true. The collaborators are assumed to be a comparator that
respects the order of its arguments, a point-on-segment test that accepts the midpoint of
its segment, and a point equality for which the midpoint of two flattened equal points is
equal to the second. -/
theorem C4_edge_midpoint (G : Collab) (hcmp : CompfloatSlack G 0)
    (hon : ∀ a b : AcGePoint3d, G.isOn ⟨a, b⟩ (midpoint3d a b) tol = true)
    (hmid : ∀ a b : AcGePoint3d, G.isEqualTo a b tol = true →
      G.isEqualTo (midpoint3d (setZ0 a) (setZ0 b)) (setZ0 b) tol = true)
    (arr : List AcGePoint3d) (h3 : 3 ≤ arr.length) (a b : AcGePoint3d)
    (he : IsEdge arr a b) :
    IsPtInArea G (midpoint3d a b) arr = some (true, arr) := by
  rw [IsPtInArea_eq]
  suffices hres : result G (midpoint3d a b) arr = true by rw [hres]
  have hflatmid : setZ0 (midpoint3d a b) = midpoint3d (setZ0 a) (setZ0 b) := by
    simp [setZ0, midpoint3d]
  cases arr with
  | nil => simp at h3
  | cons v0 rest =>
    have hab : a ∈ v0 :: rest ∧ b ∈ v0 :: rest := by
      rcases he with ⟨l1, l2, h⟩ | ⟨r, h, hl⟩
      · rw [h]; simp
      · simp only [List.cons.injEq] at h
        obtain ⟨rfl, rfl⟩ := h
        exact ⟨hl ▸ lastOf_mem _ _, by simp⟩
    rw [result_cons G _ v0 rest h3]
    obtain ⟨a1, a2, a3, a4⟩ := boxOf_holds v0 rest a hab.1
    obtain ⟨b1, b2, b3, b4⟩ := boxOf_holds v0 rest b hab.2
    rw [boxReject_false G 0 hcmp _ _ (by
      simp only [midpoint3d]
      exact ⟨by linarith, by linarith, by linarith, by linarith⟩)]
    simp only [Bool.not_false, Bool.true_and, hflatmid]
    have hhit : hit G (midpoint3d (setZ0 a) (setZ0 b)) ⟨setZ0 a, setZ0 b⟩ = true := by
      simp [hit, hon]
    rcases he with ⟨l1, l2, h⟩ | ⟨r, h, hl⟩
    · have hmem := consecutive_edge a b l2 [] l1 v0 rest h
      by_cases hc : G.isEqualTo (lastOf v0 rest) (setZ0 v0) tol = true
      · simp only [walked, hc, if_true]
        rw [List.append_nil] at hmem
        exact scan_true_of_hit G _ _ _ _ _ _ hmem hhit
      · simp only [walked, hc, if_false, Bool.false_eq_true]
        exact scan_true_of_hit G _ _ _ _ _ _
          (consecutive_edge a b l2 [setZ0 v0] l1 v0 rest h) hhit
    · simp only [List.cons.injEq] at h
      obtain ⟨rfl, rfl⟩ := h
      by_cases hc : G.isEqualTo (lastOf v0 rest) (setZ0 v0) tol = true
      · simp only [walked, hc, if_true]
        cases rest with
        | nil => simp at h3
        | cons w r =>
          apply scan_true_of_hit G _ _ _ _ _ ⟨setZ0 v0, setZ0 w⟩ (by simp [edgesFrom])
          have := hmid _ _ hc
          rw [setZ0_setZ0, ← hl] at this
          simp [hit, this]
      · simp only [walked, hc, if_false, Bool.false_eq_true]
        have hmem := closing_edge (setZ0 v0) rest v0
        rw [setZ0_setZ0, ← hl] at hmem
        exact scan_true_of_hit G _ _ _ _ _ _ hmem hhit

theorem C4_edge_midpoint_witness :
    IsEdge square ⟨0, 10, 0⟩ ⟨0, 0, 0⟩
      ∧ IsPtInArea refCollab (midpoint3d ⟨0, 10, 0⟩ ⟨0, 0, 0⟩) square = some (true, square) :=
  have h : IsEdge square ⟨0, 10, 0⟩ ⟨0, 0, 0⟩ := Or.inr ⟨_, rfl, rfl⟩
  ⟨h, C4_edge_midpoint refCollab refCollab_slack_zero refCollab_isOn_midpoint refCollab_mid
    square (by decide) _ _ h⟩

/-! ## Tolerance window -/

theorem clamp_cases (t : ℚ) :
    (t ≤ 0 ∧ max 0 (min 1 t) = 0) ∨ (0 ≤ t ∧ t ≤ 1 ∧ max 0 (min 1 t) = t)
      ∨ (1 ≤ t ∧ max 0 (min 1 t) = 1) := by
  rcases le_total t 0 with h0 | h0
  · left
    exact ⟨h0, by rw [min_eq_right (by linarith), max_eq_left h0]⟩
  · rcases le_total t 1 with h1 | h1
    · right; left
      exact ⟨h0, h1, by rw [min_eq_right h1, max_eq_right h0]⟩
    · right; right
      exact ⟨h1, by rw [min_eq_left h1, max_eq_right (by norm_num)]⟩

/-- The nearest point is `a + c (b - a)` for some `c` between 0 and 1. -/
theorem nearestOn_between (a b p : AcGePoint3d) :
    ∃ c : ℚ, 0 ≤ c ∧ c ≤ 1 ∧ nearestOn a b p
      = ⟨a.x + c * (b.x - a.x), a.y + c * (b.y - a.y), a.z + c * (b.z - a.z)⟩ := by
  by_cases h0 : dist2 b a = 0
  · refine ⟨0, le_refl _, by norm_num, ?_⟩
    simp [nearestOn, h0]
  · refine ⟨max 0 (min 1 (((p.x - a.x) * (b.x - a.x) + (p.y - a.y) * (b.y - a.y)
      + (p.z - a.z) * (b.z - a.z)) / dist2 b a)), le_max_left _ _,
      max_le (by norm_num) (min_le_left _ _), ?_⟩
    simp [nearestOn, h0]

/-- The nearest point of a segment between two points of the box lies in the box. -/
theorem nearestOn_holds (bx : Box) (a b p : AcGePoint3d) (ha : bx.Holds a.x a.y)
    (hb : bx.Holds b.x b.y) : bx.Holds (nearestOn a b p).x (nearestOn a b p).y := by
  obtain ⟨c, c0, c1, hc⟩ := nearestOn_between a b p
  obtain ⟨a1, a2, a3, a4⟩ := ha
  obtain ⟨b1, b2, b3, b4⟩ := hb
  rw [hc]
  have c1' : 0 ≤ 1 - c := by linarith
  dsimp only [Box.Holds]
  refine ⟨?_, ?_, ?_, ?_⟩
  · nlinarith [mul_nonneg c1' (sub_nonneg.mpr a1), mul_nonneg c0 (sub_nonneg.mpr b1)]
  · nlinarith [mul_nonneg c1' (sub_nonneg.mpr a2), mul_nonneg c0 (sub_nonneg.mpr b2)]
  · nlinarith [mul_nonneg c1' (sub_nonneg.mpr a3), mul_nonneg c0 (sub_nonneg.mpr b3)]
  · nlinarith [mul_nonneg c1' (sub_nonneg.mpr a4), mul_nonneg c0 (sub_nonneg.mpr b4)]

theorem setZ0_translate (dx dy : ℚ) (p : AcGePoint3d) :
    setZ0 (translate dx dy p) = translate dx dy (setZ0 p) := rfl

theorem boxStep_translate (dx dy : ℚ) (b : Box) (v : AcGePoint3d) :
    boxStep (b.shift dx dy) (translate dx dy v) = (boxStep b v).shift dx dy := by
  simp only [boxStep, Box.shift, translate, gt_iff_lt, add_lt_add_iff_right, Box.mk.injEq]
  refine ⟨?_, ?_, ?_, ?_⟩ <;> split_ifs <;> rfl

theorem foldl_boxStep_translate (dx dy : ℚ) (l : List AcGePoint3d) :
    ∀ b : Box, (l.map (translate dx dy)).foldl boxStep (b.shift dx dy)
      = (l.foldl boxStep b).shift dx dy := by
  induction l with
  | nil => intro b; rfl
  | cons w l ih =>
    intro b
    simp only [List.map_cons, List.foldl_cons, boxStep_translate, ih]

theorem boxOf_translate (dx dy : ℚ) (v0 : AcGePoint3d) (rest : List AcGePoint3d) :
    boxOf (translate dx dy v0) (rest.map (translate dx dy)) = (boxOf v0 rest).shift dx dy := by
  have h : boxInit (translate dx dy v0) = (boxInit v0).shift dx dy := rfl
  simp only [boxOf, h, foldl_boxStep_translate]

theorem lastOf_translate (dx dy : ℚ) (rest : List AcGePoint3d) :
    ∀ v0 : AcGePoint3d, lastOf (translate dx dy v0) (rest.map (translate dx dy))
      = translate dx dy (lastOf v0 rest) := by
  induction rest with
  | nil => intro v0; rfl
  | cons w rest ih => intro v0; simpa [lastOf] using ih w

theorem crossing_translate (G : Collab) (dx dy : ℚ) (hG : TranslationInvariant G dx dy)
    (a b p1 p2 : AcGePoint3d) :
    crossing G ⟨translate dx dy a, translate dx dy b⟩ (translate dx dy p1) (translate dx dy p2)
      = crossing G ⟨a, b⟩ p1 p2 := by
  obtain ⟨_, _, hE, _, hI⟩ := hG
  simp only [crossing, hI]
  cases G.intersectWith ⟨a, b⟩ ⟨p1, p2⟩ tol with
  | none => rfl
  | some ipt =>
    simp only [Option.map_some', hE]
    simp only [translate, gt_iff_lt, add_lt_add_iff_right]

theorem scan_translate (G : Collab) (dx dy : ℚ) (hG : TranslationInvariant G dx dy)
    (pt a b : AcGePoint3d) (l : List AcGePoint3d) :
    ∀ (p1 : AcGePoint3d) (n : Nat),
      scan G (translate dx dy pt) ⟨translate dx dy a, translate dx dy b⟩ (translate dx dy p1)
          (l.map (translate dx dy)) n
        = scan G pt ⟨a, b⟩ p1 l n := by
  induction l with
  | nil => intro p1 n; rfl
  | cons v rest ih =>
    intro p1 n
    simp only [List.map_cons, scan, setZ0_translate, hG.2.2.1, hG.2.2.2.1,
      crossing_translate G dx dy hG, ih]

theorem result_translate (G : Collab) (dx dy : ℚ) (hG : TranslationInvariant G dx dy)
    (pt : AcGePoint3d) (arr : List AcGePoint3d) :
    result G (translate dx dy pt) (arr.map (translate dx dy)) = result G pt arr := by
  cases arr with
  | nil => rfl
  | cons v0 rest =>
    have hrej : boxReject G (translate dx dy pt) ((boxOf v0 rest).shift dx dy)
        = boxReject G pt (boxOf v0 rest) := by
      simp only [boxReject, translate, Box.shift, hG.1, hG.2.1]
    have hwalk : walked G (translate dx dy v0) (rest.map (translate dx dy))
        = (walked G v0 rest).map (translate dx dy) := by
      simp only [walked, lastOf_translate, setZ0_translate, hG.2.2.1]
      split_ifs <;> simp [setZ0_translate]
    have hray : ray (translate dx dy pt) ((boxOf v0 rest).shift dx dy)
        = ⟨translate dx dy (setZ0 pt),
            translate dx dy ⟨(boxOf v0 rest).dblMaxX + 10, (setZ0 pt).y, (setZ0 pt).z⟩⟩ := by
      simp only [ray, translate, setZ0, Box.shift, AcGeLineSeg3d.mk.injEq, AcGePoint3d.mk.injEq,
        true_and, and_true]
      ring
    simp only [List.map_cons, result, List.length_cons, List.length_map, boxOf_translate, hrej,
      hwalk, hray, setZ0_translate, scan_translate G dx dy hG]
    rfl

/-- C8: translating the query point and all polygon vertices by the same vector `(dx, dy)`
leaves the result of `IsPtInArea` unchanged, for collaborators that do not see this
translation. -/
theorem C8_translation_invariance (G : Collab) (dx dy : ℚ)
    (hG : TranslationInvariant G dx dy) (pt : AcGePoint3d) (arr : List AcGePoint3d) :
    ∃ r : Bool, IsPtInArea G pt arr = some (r, arr)
      ∧ IsPtInArea G (translate dx dy pt) (arr.map (translate dx dy))
        = some (r, arr.map (translate dx dy)) := by
  refine ⟨result G pt arr, IsPtInArea_eq G pt arr, ?_⟩
  rw [IsPtInArea_eq, result_translate G dx dy hG]

theorem dist2_translate (dx dy : ℚ) (a b : AcGePoint3d) :
    dist2 (translate dx dy a) (translate dx dy b) = dist2 a b := by
  simp only [dist2, translate]
  ring

theorem nearestOn_translate (dx dy : ℚ) (a b p : AcGePoint3d) :
    nearestOn (translate dx dy a) (translate dx dy b) (translate dx dy p)
      = translate dx dy (nearestOn a b p) := by
  have hx : ∀ u v : ℚ, u + dx - (v + dx) = u - v := fun u v => by ring
  have hy : ∀ u v : ℚ, u + dy - (v + dy) = u - v := fun u v => by ring
  simp only [nearestOn, dist2_translate]
  by_cases h0 : dist2 b a = 0
  · simp only [h0, if_true]
  · simp only [h0, if_false, translate, hx, hy, AcGePoint3d.mk.injEq, and_true]
    exact ⟨by ring, by ring⟩

theorem refIntersectWith_translate (dx dy : ℚ) (a b c d : AcGePoint3d) :
    refIntersectWith ⟨translate dx dy a, translate dx dy b⟩
        ⟨translate dx dy c, translate dx dy d⟩ tol
      = (refIntersectWith ⟨a, b⟩ ⟨c, d⟩ tol).map (translate dx dy) := by
  have hx : ∀ u v : ℚ, u + dx - (v + dx) = u - v := fun u v => by ring
  have hy : ∀ u v : ℚ, u + dy - (v + dy) = u - v := fun u v => by ring
  simp only [refIntersectWith, translate, hx, hy]
  split_ifs
  · rfl
  · simp only [Option.map_some', translate, Option.some.injEq, AcGePoint3d.mk.injEq, and_true]
    exact ⟨by ring, by ring⟩
  · rfl

/-- The reference collaborators do not see translations. -/
theorem refCollab_translationInvariant (dx dy : ℚ) : TranslationInvariant refCollab dx dy := by
  refine ⟨?_, ?_, ?_, ?_, ?_⟩
  · intro a b
    have h1 : b + dx + 1 / 100 < a + dx ↔ b + 1 / 100 < a := by constructor <;> intro h <;> linarith
    have h2 : a + dx < b + dx - 1 / 100 ↔ a < b - 1 / 100 := by constructor <;> intro h <;> linarith
    simp only [refCollab, refCompfloat, h1, h2]
  · intro a b
    have h1 : b + dy + 1 / 100 < a + dy ↔ b + 1 / 100 < a := by constructor <;> intro h <;> linarith
    have h2 : a + dy < b + dy - 1 / 100 ↔ a < b - 1 / 100 := by constructor <;> intro h <;> linarith
    simp only [refCollab, refCompfloat, h1, h2]
  · intro a b
    simp only [refCollab, refIsEqualTo, dist2_translate]
  · intro a b p
    simp only [refCollab, refIsOn, segDist2, nearestOn_translate, dist2_translate]
  · intro a b c d
    exact refIntersectWith_translate dx dy a b c d

theorem C8_translation_invariance_witness :
    TranslationInvariant refCollab 3 (-2)
      ∧ ∃ r : Bool, IsPtInArea refCollab ⟨5, 5, 0⟩ square = some (r, square)
        ∧ IsPtInArea refCollab (translate 3 (-2) ⟨5, 5, 0⟩) (square.map (translate 3 (-2)))
          = some (r, square.map (translate 3 (-2))) :=
  ⟨refCollab_translationInvariant 3 (-2),
    C8_translation_invariance refCollab 3 (-2) (refCollab_translationInvariant 3 (-2))
      ⟨5, 5, 0⟩ square⟩

/-! ## The square, for every query point -/

theorem crossing_bottom (x y : ℚ) : crossing refCollab ⟨⟨x, y, 0⟩, ⟨10 + 10, y, 0⟩⟩ ⟨0, 0, 0⟩ ⟨10, 0, 0⟩ = 0 := by
  simp [crossing, refCollab, refIntersectWith]

theorem crossing_top (x y : ℚ) : crossing refCollab ⟨⟨x, y, 0⟩, ⟨10 + 10, y, 0⟩⟩ ⟨10, 10, 0⟩ ⟨0, 10, 0⟩ = 0 := by
  simp [crossing, refCollab, refIntersectWith]

theorem crossing_right_out (x y : ℚ) (h : y < 0 ∨ 10 < y) :
    crossing refCollab ⟨⟨x, y, 0⟩, ⟨10 + 10, y, 0⟩⟩ ⟨10, 0, 0⟩ ⟨10, 10, 0⟩ = 0 := by
  simp only [crossing, refCollab, refIntersectWith]
  norm_num
  by_cases hx : 20 - x = 0
  · simp [hx]
  · have hu : y * (20 - x) / ((20 - x) * 10) = y / 10 := by
      field_simp
      ring
    rw [if_neg hx, hu, if_neg]
    intro hc
    rcases h with h | h
    · have := hc.2.2.1
      rw [le_div_iff₀ (by norm_num)] at this
      linarith
    · have := hc.2.2.2
      rw [div_le_iff₀ (by norm_num)] at this
      linarith

theorem crossing_left_out (x y : ℚ) (h : y < 0 ∨ 10 < y) :
    crossing refCollab ⟨⟨x, y, 0⟩, ⟨10 + 10, y, 0⟩⟩ ⟨0, 10, 0⟩ ⟨0, 0, 0⟩ = 0 := by
  simp only [crossing, refCollab, refIntersectWith]
  norm_num
  by_cases hx : 20 - x = 0
  · simp [hx]
  · have hu : (10 - y) * (20 - x) / ((20 - x) * 10) = (10 - y) / 10 := by
      field_simp
      ring
    rw [if_neg hx, hu, if_neg]
    intro hc
    rcases h with h | h
    · have := hc.2.2.2
      rw [div_le_iff₀ (by norm_num)] at this
      linarith
    · have := hc.2.2.1
      rw [le_div_iff₀ (by norm_num)] at this
      linarith

theorem crossing_right_in (x y : ℚ) (hx : x < 10) (h1 : 1 / 100 < y) (h2 : y < 10 - 1 / 100) :
    crossing refCollab ⟨⟨x, y, 0⟩, ⟨10 + 10, y, 0⟩⟩ ⟨10, 0, 0⟩ ⟨10, 10, 0⟩ = 1 := by
  simp only [crossing, refCollab, refIntersectWith]
  norm_num
  have hx0 : 20 - x ≠ 0 := by intro h; linarith
  have hxp : 0 < 20 - x := by linarith
  have hu : y * (20 - x) / ((20 - x) * 10) = y / 10 := by
    field_simp
    ring
  have ht : (10 - x) * 10 / ((20 - x) * 10) * (20 - x) = 10 - x := by
    field_simp
    ring
  have hc : 0 ≤ (10 - x) * 10 / ((20 - x) * 10) ∧
      (10 - x) * 10 / ((20 - x) * 10) ≤ 1 ∧ 0 ≤ y / 10 ∧ y / 10 ≤ 1 := by
    refine ⟨?_, ?_, ?_, ?_⟩
    · apply div_nonneg <;> nlinarith
    · rw [div_le_one (by nlinarith)]
      nlinarith
    · apply div_nonneg <;> linarith
    · rw [div_le_one (by norm_num)]
      linarith
  rw [if_neg hx0, hu, if_pos hc]
  simp only [ht, refIsEqualTo, dist2, tol, decide_eq_true_eq]
  rw [if_neg (by intro h; nlinarith), if_neg (by intro h; nlinarith)]

theorem crossing_left_in (x y : ℚ) (hx : 0 < x) (hx2 : x < 20) :
    crossing refCollab ⟨⟨x, y, 0⟩, ⟨10 + 10, y, 0⟩⟩ ⟨0, 10, 0⟩ ⟨0, 0, 0⟩ = 0 := by
  simp only [crossing, refCollab, refIntersectWith]
  norm_num
  have hx0 : 20 - x ≠ 0 := by intro h; linarith
  rw [if_neg hx0, if_neg]
  intro hc
  have h1 := hc.1
  rw [le_div_iff_of_neg (by linarith)] at h1
  linarith

theorem excess_cases (x : ℚ) :
    (x ≤ 0 ∧ max 0 (max (-x) (x - 10)) = -x) ∨ (0 ≤ x ∧ x ≤ 10 ∧ max 0 (max (-x) (x - 10)) = 0)
      ∨ (10 ≤ x ∧ max 0 (max (-x) (x - 10)) = x - 10) := by
  rcases le_total x 0 with h0 | h0
  · left
    exact ⟨h0, by
      rw [max_eq_left (show x - 10 ≤ -x by linarith), max_eq_right (show (0 : ℚ) ≤ -x by linarith)]⟩
  · rcases le_total x 10 with h1 | h1
    · right; left
      exact ⟨h0, h1, by rw [max_eq_left (max_le (by linarith) (by linarith))]⟩
    · right; right
      exact ⟨h1, by
        rw [max_eq_right (show -x ≤ x - 10 by linarith),
          max_eq_right (show (0 : ℚ) ≤ x - 10 by linarith)]⟩

theorem excess_sq_le (x q : ℚ) (h0 : 0 ≤ q) (h1 : q ≤ 10) :
    (max 0 (max (-x) (x - 10))) ^ 2 ≤ (x - q) ^ 2 := by
  rcases excess_cases x with ⟨h, he⟩ | ⟨h, h', he⟩ | ⟨h, he⟩ <;> rw [he] <;> nlinarith

theorem squareDist2_le_dist2 (x y : ℚ) (q : AcGePoint3d)
    (hq : (⟨10, 0, 10, 0⟩ : Box).Holds q.x q.y) : squareDist2 x y ≤ dist2 ⟨x, y, 0⟩ q := by
  obtain ⟨q1, q2, q3, q4⟩ := hq
  simp only at q1 q2 q3 q4
  have hx := excess_sq_le x q.x q1 q2
  have hy := excess_sq_le y q.y q3 q4
  simp only [squareDist2, dist2]
  nlinarith [sq_nonneg ((0 : ℚ) - q.z)]

theorem hit_square_imp (x y : ℚ) (a b : AcGePoint3d) (ha : (⟨10, 0, 10, 0⟩ : Box).Holds a.x a.y)
    (hb : (⟨10, 0, 10, 0⟩ : Box).Holds b.x b.y) (h : hit refCollab ⟨x, y, 0⟩ ⟨a, b⟩ = true) :
    squareDist2 x y ≤ (1 / 100) ^ 2 := by
  simp only [hit, Bool.or_eq_true] at h
  rcases h with h | h
  · rw [refIsEqualTo_iff] at h
    exact (squareDist2_le_dist2 x y a ha).trans h
  · rw [refIsOn_iff] at h
    exact (squareDist2_le_dist2 x y _ (nearestOn_holds _ a b _ ha hb)).trans h

theorem segDist2_le_point (a b p : AcGePoint3d) (c : ℚ) (c0 : 0 ≤ c) (c1 : c ≤ 1) :
    segDist2 a b p
      ≤ dist2 p ⟨a.x + c * (b.x - a.x), a.y + c * (b.y - a.y), a.z + c * (b.z - a.z)⟩ := by
  by_cases h0 : dist2 b a = 0
  · have hab := dist2_eq_zero a b h0
    subst hab
    simp [segDist2, nearestOn, h0]
  · have hpos : 0 < dist2 b a := by
      have : 0 ≤ dist2 b a := by
        simp only [dist2]
        positivity
      exact lt_of_le_of_ne this (Ne.symm h0)
    obtain ⟨t, ht⟩ : ∃ t : ℚ, t = ((p.x - a.x) * (b.x - a.x) + (p.y - a.y) * (b.y - a.y)
      + (p.z - a.z) * (b.z - a.z)) / dist2 b a := ⟨_, rfl⟩
    have hs : t * dist2 b a = (p.x - a.x) * (b.x - a.x) + (p.y - a.y) * (b.y - a.y)
      + (p.z - a.z) * (b.z - a.z) := by
      rw [ht]
      field_simp
    simp only [segDist2, nearestOn, h0, if_false, ← ht]
    simp only [dist2] at hs hpos ⊢
    have c1' : 0 ≤ 1 - c := by linarith
    have hcs := congrArg (fun w => c * w) hs
    have hts := congrArg (fun w => t * w) hs
    simp only at hcs hts
    rcases clamp_cases t with ⟨h1, hc⟩ | ⟨h1, h2, hc⟩ | ⟨h1, hc⟩ <;> rw [hc]
    · have hint := mul_nonneg (mul_nonneg c0 (show 0 ≤ c - 2 * t by linarith)) hpos.le
      linarith
    · have hint := mul_nonneg (sq_nonneg (c - t)) hpos.le
      linarith
    · have hint := mul_nonneg (mul_nonneg c1' (show 0 ≤ 2 * t - 1 - c by linarith)) hpos.le
      linarith

theorem hit_of_point (a b p : AcGePoint3d) (c : ℚ) (c0 : 0 ≤ c) (c1 : c ≤ 1)
    (hd : dist2 p ⟨a.x + c * (b.x - a.x), a.y + c * (b.y - a.y), a.z + c * (b.z - a.z)⟩
      ≤ (1 / 100) ^ 2) : hit refCollab p ⟨a, b⟩ = true := by
  have := (refIsOn_iff a b p).mpr ((segDist2_le_point a b p c c0 c1).trans hd)
  simp [hit, this]

theorem refCompfloat_gt (a b : ℚ) (h : b + 1 / 100 < a) : 0 < refCollab.Compfloat a b := by
  simp only [refCollab, refCompfloat]
  rw [if_pos h]
  decide

theorem refCompfloat_lt (a b : ℚ) (h : a < b - 1 / 100) : refCollab.Compfloat a b < 0 := by
  have h' : ¬ b + 1 / 100 < a := by linarith
  simp only [refCollab, refCompfloat]
  rw [if_neg h', if_pos h]
  decide

theorem boxReject_square_true (x y z : ℚ)
    (h : 10 + 1 / 100 < x ∨ x < 0 - 1 / 100 ∨ 10 + 1 / 100 < y ∨ y < 0 - 1 / 100) :
    boxReject refCollab ⟨x, y, z⟩ ⟨10, 0, 10, 0⟩ = true := by
  simp only [boxReject, Bool.or_eq_true, decide_eq_true_eq, gt_iff_lt]
  rcases h with h | h | h | h
  · exact Or.inl (Or.inl (Or.inl (refCompfloat_gt _ _ h)))
  · exact Or.inl (Or.inl (Or.inr (refCompfloat_lt _ _ h)))
  · exact Or.inl (Or.inr (refCompfloat_gt _ _ h))
  · exact Or.inr (refCompfloat_lt _ _ h)

theorem squareDist2_zero (x y : ℚ) (hx0 : 0 ≤ x) (hx1 : x ≤ 10) (hy0 : 0 ≤ y) (hy1 : y ≤ 10) :
    squareDist2 x y = 0 := by
  have ex : max 0 (max (-x) (x - 10)) = 0 := max_eq_left (max_le (by linarith) (by linarith))
  have ey : max 0 (max (-y) (y - 10)) = 0 := max_eq_left (max_le (by linarith) (by linarith))
  simp [squareDist2, ex, ey]

/-- Some edge of the square passes a short-circuit test when the point is within the
tolerance of the square and not deep inside it. -/
theorem square_hit (x y : ℚ) (hD : squareDist2 x y ≤ (1 / 100) ^ 2)
    (hdeep : ¬ (1 / 100 < x ∧ x < 10 - 1 / 100 ∧ 1 / 100 < y ∧ y < 10 - 1 / 100)) :
    hit refCollab ⟨x, y, 0⟩ ⟨⟨0, 0, 0⟩, ⟨10, 0, 0⟩⟩ = true
      ∨ hit refCollab ⟨x, y, 0⟩ ⟨⟨10, 0, 0⟩, ⟨10, 10, 0⟩⟩ = true
      ∨ hit refCollab ⟨x, y, 0⟩ ⟨⟨10, 10, 0⟩, ⟨0, 10, 0⟩⟩ = true
      ∨ hit refCollab ⟨x, y, 0⟩ ⟨⟨0, 10, 0⟩, ⟨0, 0, 0⟩⟩ = true := by
  -- the four ways to land on an edge
  have onE1 : ∀ c : ℚ, 0 ≤ c → c ≤ 1 → (x - 10 * c) ^ 2 + y ^ 2 ≤ (1 / 100) ^ 2 →
      hit refCollab ⟨x, y, 0⟩ ⟨⟨0, 0, 0⟩, ⟨10, 0, 0⟩⟩ = true := by
    intro c c0 c1 h
    apply hit_of_point _ _ _ c c0 c1
    have e : dist2 ⟨x, y, 0⟩ ⟨0 + c * (10 - 0), 0 + c * (0 - 0), 0 + c * (0 - 0)⟩
        = (x - 10 * c) ^ 2 + y ^ 2 := by
      simp only [dist2]
      ring
    rw [e]
    exact h
  have onE2 : ∀ c : ℚ, 0 ≤ c → c ≤ 1 → (x - 10) ^ 2 + (y - 10 * c) ^ 2 ≤ (1 / 100) ^ 2 →
      hit refCollab ⟨x, y, 0⟩ ⟨⟨10, 0, 0⟩, ⟨10, 10, 0⟩⟩ = true := by
    intro c c0 c1 h
    apply hit_of_point _ _ _ c c0 c1
    have e : dist2 ⟨x, y, 0⟩ ⟨10 + c * (10 - 10), 0 + c * (10 - 0), 0 + c * (0 - 0)⟩
        = (x - 10) ^ 2 + (y - 10 * c) ^ 2 := by
      simp only [dist2]
      ring
    rw [e]
    exact h
  have onE3 : ∀ c : ℚ, 0 ≤ c → c ≤ 1 → (x - 10 + 10 * c) ^ 2 + (y - 10) ^ 2 ≤ (1 / 100) ^ 2 →
      hit refCollab ⟨x, y, 0⟩ ⟨⟨10, 10, 0⟩, ⟨0, 10, 0⟩⟩ = true := by
    intro c c0 c1 h
    apply hit_of_point _ _ _ c c0 c1
    have e : dist2 ⟨x, y, 0⟩ ⟨10 + c * (0 - 10), 10 + c * (10 - 10), 0 + c * (0 - 0)⟩
        = (x - 10 + 10 * c) ^ 2 + (y - 10) ^ 2 := by
      simp only [dist2]
      ring
    rw [e]
    exact h
  have onE4 : ∀ c : ℚ, 0 ≤ c → c ≤ 1 → x ^ 2 + (y - 10 + 10 * c) ^ 2 ≤ (1 / 100) ^ 2 →
      hit refCollab ⟨x, y, 0⟩ ⟨⟨0, 10, 0⟩, ⟨0, 0, 0⟩⟩ = true := by
    intro c c0 c1 h
    apply hit_of_point _ _ _ c c0 c1
    have e : dist2 ⟨x, y, 0⟩ ⟨0 + c * (0 - 0), 10 + c * (0 - 10), 0 + c * (0 - 0)⟩
        = x ^ 2 + (y - 10 + 10 * c) ^ 2 := by
      simp only [dist2]
      ring
    rw [e]
    exact h
  simp only [squareDist2] at hD
  rcases excess_cases x with ⟨hx, ex⟩ | ⟨hx0, hx1, ex⟩ | ⟨hx, ex⟩ <;>
    rcases excess_cases y with ⟨hy, ey⟩ | ⟨hy0, hy1, ey⟩ | ⟨hy, ey⟩ <;>
    rw [ex, ey] at hD
  · exact Or.inl (onE1 0 le_rfl (by norm_num) (by nlinarith))
  · refine Or.inr (Or.inr (Or.inr (onE4 ((10 - y) / 10) (by linarith) (by linarith) ?_)))
    have e : y - 10 + 10 * ((10 - y) / 10) = 0 := by ring
    rw [e]
    nlinarith
  · exact Or.inr (Or.inr (Or.inr (onE4 0 le_rfl (by norm_num) (by nlinarith))))
  · refine Or.inl (onE1 (x / 10) (by linarith) (by linarith) ?_)
    have e : x - 10 * (x / 10) = 0 := by ring
    rw [e]
    nlinarith
  · by_cases g1 : x ≤ 1 / 100
    · refine Or.inr (Or.inr (Or.inr (onE4 ((10 - y) / 10) (by linarith) (by linarith) ?_)))
      have e : y - 10 + 10 * ((10 - y) / 10) = 0 := by ring
      rw [e]
      nlinarith
    · by_cases g2 : 10 - 1 / 100 ≤ x
      · refine Or.inr (Or.inl (onE2 (y / 10) (by linarith) (by linarith) ?_))
        have e : y - 10 * (y / 10) = 0 := by ring
        rw [e]
        nlinarith
      · by_cases g3 : y ≤ 1 / 100
        · refine Or.inl (onE1 (x / 10) (by linarith) (by linarith) ?_)
          have e : x - 10 * (x / 10) = 0 := by ring
          rw [e]
          nlinarith
        · have g4 : 10 - 1 / 100 ≤ y := by
            by_contra g4
            exact hdeep ⟨by linarith, by linarith, by linarith, by linarith⟩
          refine Or.inr (Or.inr (Or.inl (onE3 ((10 - x) / 10) (by linarith) (by linarith) ?_)))
          have e : x - 10 + 10 * ((10 - x) / 10) = 0 := by ring
          rw [e]
          nlinarith
  · refine Or.inr (Or.inr (Or.inl (onE3 ((10 - x) / 10) (by linarith) (by linarith) ?_)))
    have e : x - 10 + 10 * ((10 - x) / 10) = 0 := by ring
    rw [e]
    nlinarith
  · exact Or.inr (Or.inl (onE2 0 le_rfl (by norm_num) (by nlinarith)))
  · refine Or.inr (Or.inl (onE2 (y / 10) (by linarith) (by linarith) ?_))
    have e : y - 10 * (y / 10) = 0 := by ring
    rw [e]
    nlinarith
  · exact Or.inr (Or.inr (Or.inl (onE3 0 le_rfl (by norm_num) (by nlinarith))))

/-- The boolean returned on the square, for every query point. -/
theorem result_square_iff (x y z : ℚ) :
    result refCollab ⟨x, y, z⟩ square = true ↔ squareDist2 x y ≤ (1 / 100) ^ 2 := by
  have h3 : 3 ≤ square.length := by decide
  have hbox : boxOf ⟨0, 0, 0⟩ [⟨10, 0, 0⟩, ⟨10, 10, 0⟩, ⟨0, 10, 0⟩] = ⟨10, 0, 10, 0⟩ := by
    norm_num [boxOf, boxInit, boxStep]
  have hwalk : walked refCollab ⟨0, 0, 0⟩ [⟨10, 0, 0⟩, ⟨10, 10, 0⟩, ⟨0, 10, 0⟩]
      = [⟨10, 0, 0⟩, ⟨10, 10, 0⟩, ⟨0, 10, 0⟩, ⟨0, 0, 0⟩] := by
    norm_num [walked, lastOf, refCollab, refIsEqualTo, dist2, setZ0, tol]
  unfold square
  rw [result_cons _ _ _ _ h3, hbox, hwalk, scan_eq]
  simp only [edgesFrom, setZ0, List.any_cons, List.any_nil, crossings, List.map_cons,
    List.map_nil, List.sum_cons, List.sum_nil, ray, crossing_bottom, crossing_top]
  by_cases hin : 0 - 1 / 100 ≤ x ∧ x ≤ 10 + 1 / 100 ∧ 0 - 1 / 100 ≤ y ∧ y ≤ 10 + 1 / 100
  · have hrej : boxReject refCollab ⟨x, y, z⟩ ⟨10, 0, 10, 0⟩ = false :=
      boxReject_false refCollab (1 / 100) refCollab_slack _ _ hin
    obtain ⟨i1, i2, i3, i4⟩ := hin
    rw [hrej]
    by_cases hD : squareDist2 x y ≤ (1 / 100) ^ 2
    · simp only [hD, iff_true]
      by_cases hdeep : 1 / 100 < x ∧ x < 10 - 1 / 100 ∧ 1 / 100 < y ∧ y < 10 - 1 / 100
      · obtain ⟨d1, d2, d3, d4⟩ := hdeep
        rw [crossing_right_in x y (by linarith) d3 d4, crossing_left_in x y (by linarith) (by linarith)]
        simp
      · rcases square_hit x y hD hdeep with h | h | h | h <;> simp [h]
    · simp only [hD, iff_false]
      have hb : ∀ a b : ℚ, (a = 0 ∨ a = 10) → (b = 0 ∨ b = 10) →
          (⟨10, 0, 10, 0⟩ : Box).Holds (⟨a, b, 0⟩ : AcGePoint3d).x (⟨a, b, 0⟩ : AcGePoint3d).y := by
        intro a b ha hb
        simp only [Box.Holds]
        rcases ha with rfl | rfl <;> rcases hb with rfl | rfl <;> norm_num
      have n1 : hit refCollab ⟨x, y, 0⟩ ⟨⟨0, 0, 0⟩, ⟨10, 0, 0⟩⟩ = false := by
        by_contra h
        exact hD (hit_square_imp x y _ _ (hb 0 0 (by simp) (by simp)) (hb 10 0 (by simp) (by simp))
          (by simpa using h))
      have n2 : hit refCollab ⟨x, y, 0⟩ ⟨⟨10, 0, 0⟩, ⟨10, 10, 0⟩⟩ = false := by
        by_contra h
        exact hD (hit_square_imp x y _ _ (hb 10 0 (by simp) (by simp))
          (hb 10 10 (by simp) (by simp)) (by simpa using h))
      have n3 : hit refCollab ⟨x, y, 0⟩ ⟨⟨10, 10, 0⟩, ⟨0, 10, 0⟩⟩ = false := by
        by_contra h
        exact hD (hit_square_imp x y _ _ (hb 10 10 (by simp) (by simp))
          (hb 0 10 (by simp) (by simp)) (by simpa using h))
      have n4 : hit refCollab ⟨x, y, 0⟩ ⟨⟨0, 10, 0⟩, ⟨0, 0, 0⟩⟩ = false := by
        by_contra h
        exact hD (hit_square_imp x y _ _ (hb 0 10 (by simp) (by simp))
          (hb 0 0 (by simp) (by simp)) (by simpa using h))
      have hy : y < 0 ∨ 10 < y := by
        by_contra hy
        push_neg at hy
        apply hD
        simp only [squareDist2]
        have ey : max 0 (max (-y) (y - 10)) = 0 :=
          max_eq_left (max_le (by linarith) (by linarith))
        rw [ey]
        rcases excess_cases x with ⟨hx, ex⟩ | ⟨hx0, hx1, ex⟩ | ⟨hx, ex⟩ <;> rw [ex] <;> nlinarith
      rw [n1, n2, n3, n4, crossing_right_out x y hy, crossing_left_out x y hy]
      simp
  · have hrej : boxReject refCollab ⟨x, y, z⟩ ⟨10, 0, 10, 0⟩ = true := by
      apply boxReject_square_true
      by_contra hout
      push_neg at hout
      exact hin ⟨hout.2.1, hout.1, hout.2.2.2, hout.2.2.1⟩
    rw [hrej]
    simp only [Bool.not_true, Bool.false_and, Bool.false_eq_true, false_iff, not_le]
    have hout : 10 + 1 / 100 < x ∨ x < 0 - 1 / 100 ∨ 10 + 1 / 100 < y ∨ y < 0 - 1 / 100 := by
      by_contra hout
      push_neg at hout
      exact hin ⟨hout.2.1, hout.1, hout.2.2.2, hout.2.2.1⟩
    simp only [squareDist2]
    have px : 0 ≤ max 0 (max (-x) (x - 10)) := le_max_left _ _
    have py : 0 ≤ max 0 (max (-y) (y - 10)) := le_max_left _ _
    rcases hout with h | h | h | h
    · have : x - 10 ≤ max 0 (max (-x) (x - 10)) := (le_max_right _ _).trans (le_max_right _ _)
      nlinarith
    · have : -x ≤ max 0 (max (-x) (x - 10)) := (le_max_left _ _).trans (le_max_right _ _)
      nlinarith
    · have : y - 10 ≤ max 0 (max (-y) (y - 10)) := (le_max_right _ _).trans (le_max_right _ _)
      nlinarith
    · have : -y ≤ max 0 (max (-y) (y - 10)) := (le_max_left _ _).trans (le_max_right _ _)
      nlinarith

/-- C6: on the square `[(0,0), (10,0), (10,10), (0,10)]` with the reference collaborators
(exact segment intersection, Euclidean point equality and point-on-segment test, comparator
slack, all with tolerance 0.01) the call returns true if and only if the distance from the
query point to the closed square region is at most 0.01. -/
theorem C6_square_characterization (x y z : ℚ) :
    ∃ r : Bool, IsPtInArea refCollab ⟨x, y, z⟩ square = some (r, square)
      ∧ (r = true ↔ squareDist2 x y ≤ (1 / 100) ^ 2) :=
  ⟨result refCollab ⟨x, y, z⟩ square, IsPtInArea_eq _ _ _, result_square_iff x y z⟩

/-! ## The z coordinates -/

theorem foldl_boxStep_flat (l : List AcGePoint3d) :
    ∀ b : Box, (l.map setZ0).foldl boxStep b = l.foldl boxStep b := by
  induction l with
  | nil => intro b; rfl
  | cons w l ih =>
    intro b
    simp only [List.map_cons, List.foldl_cons]
    exact ih _

theorem scan_flat (G : Collab) (pt : AcGePoint3d) (ls : AcGeLineSeg3d) (l : List AcGePoint3d) :
    ∀ (p1 : AcGePoint3d) (n : Nat), scan G pt ls p1 (l.map setZ0) n = scan G pt ls p1 l n := by
  induction l with
  | nil => intro p1 n; rfl
  | cons v rest ih =>
    intro p1 n
    simp only [List.map_cons, scan, setZ0_setZ0, ih]

/-- The z coordinates reach the result only through the closure test of line 57: two inputs
with the same x and y everywhere and the same outcome of the closure test get the same
boolean. -/
theorem result_z_only_closure (G : Collab) (pt pt2 v0 w0 : AcGePoint3d)
    (rest rest2 : List AcGePoint3d) (hpt : setZ0 pt = setZ0 pt2)
    (hv : (v0 :: rest).map setZ0 = (w0 :: rest2).map setZ0)
    (hclose : G.isEqualTo (lastOf v0 rest) (setZ0 v0) tol
      = G.isEqualTo (lastOf w0 rest2) (setZ0 w0) tol) :
    result G pt (v0 :: rest) = result G pt2 (w0 :: rest2) := by
  simp only [List.map_cons, List.cons.injEq] at hv
  obtain ⟨h0, hr⟩ := hv
  have hlen : (v0 :: rest).length = (w0 :: rest2).length := by
    have := congrArg List.length hr
    simpa using this
  have hbox : boxOf v0 rest = boxOf w0 rest2 := by
    have e1 : boxInit v0 = boxInit (setZ0 v0) := rfl
    have e2 : boxInit w0 = boxInit (setZ0 w0) := rfl
    simp only [boxOf]
    rw [← foldl_boxStep_flat rest, ← foldl_boxStep_flat rest2, e1, e2, h0, hr]
  have hrej : ∀ b : Box, boxReject G pt b = boxReject G pt2 b := by
    intro b
    have e1 : boxReject G pt b = boxReject G (setZ0 pt) b := rfl
    have e2 : boxReject G pt2 b = boxReject G (setZ0 pt2) b := rfl
    rw [e1, e2, hpt]
  have hray : ∀ b : Box, ray pt b = ray pt2 b := by
    intro b
    simp only [ray, hpt]
  have hwalk : (walked G v0 rest).map setZ0 = (walked G w0 rest2).map setZ0 := by
    simp only [walked, hclose]
    split_ifs
    · exact hr
    · simp [hr, h0]
  simp only [result, hlen, hbox, hrej, hray, hpt, h0]
  rw [← scan_flat G _ _ (walked G v0 rest), ← scan_flat G _ _ (walked G w0 rest2), hwalk]

/-- C9: two polygons that agree on every x and y and differ only in the z of the last
vertex get different answers for the same query point: with the last vertex at height 0 the
closure test sees a closed polygon and the call returns false, with the last vertex at
height 1 the first vertex is appended and the call returns true. -/
theorem C9_last_vertex_z_observed :
    (wedge 0).map setZ0 = (wedge 1).map setZ0
      ∧ IsPtInArea refCollab wedgeQuery (wedge 0) = some (false, wedge 0)
      ∧ IsPtInArea refCollab wedgeQuery (wedge 1) = some (true, wedge 1) := by
  simp only [IsPtInArea_eq]
  refine ⟨?_, ?_, ?_⟩ <;>
    norm_num [result, walked, ray, lastOf, wedge, wedgeQuery, boxOf, boxInit, boxStep, boxReject, refCollab,
      refCompfloat, refIsEqualTo, refIsOn, refIntersectWith, scan, crossing, setZ0, tol, dist2,
      segDist2, nearestOn]

/-! ## The bounding box as a fast path -/

theorem refCollab_intersectSound : IntersectSound refCollab := by
  intro s1 s2 ipt h
  simp only [refCollab, refIntersectWith] at h
  split_ifs at h with hden hcond
  obtain ⟨t0, t1, u0, u1⟩ := hcond
  refine ⟨_, _, t0, t1, u0, u1, ?_⟩
  have hx : (along s1 ((((s2.startPoint.x - s1.startPoint.x) * (s2.endPoint.y - s2.startPoint.y)
      - (s2.startPoint.y - s1.startPoint.y) * (s2.endPoint.x - s2.startPoint.x))
      / ((s1.endPoint.x - s1.startPoint.x) * (s2.endPoint.y - s2.startPoint.y)
      - (s1.endPoint.y - s1.startPoint.y) * (s2.endPoint.x - s2.startPoint.x))))).x
      = (along s2 ((((s2.startPoint.x - s1.startPoint.x) * (s1.endPoint.y - s1.startPoint.y)
      - (s2.startPoint.y - s1.startPoint.y) * (s1.endPoint.x - s1.startPoint.x))
      / ((s1.endPoint.x - s1.startPoint.x) * (s2.endPoint.y - s2.startPoint.y)
      - (s1.endPoint.y - s1.startPoint.y) * (s2.endPoint.x - s2.startPoint.x))))).x := by
    simp only [along]
    field_simp
    ring
  have hy : (along s1 ((((s2.startPoint.x - s1.startPoint.x) * (s2.endPoint.y - s2.startPoint.y)
      - (s2.startPoint.y - s1.startPoint.y) * (s2.endPoint.x - s2.startPoint.x))
      / ((s1.endPoint.x - s1.startPoint.x) * (s2.endPoint.y - s2.startPoint.y)
      - (s1.endPoint.y - s1.startPoint.y) * (s2.endPoint.x - s2.startPoint.x))))).y
      = (along s2 ((((s2.startPoint.x - s1.startPoint.x) * (s1.endPoint.y - s1.startPoint.y)
      - (s2.startPoint.y - s1.startPoint.y) * (s1.endPoint.x - s1.startPoint.x))
      / ((s1.endPoint.x - s1.startPoint.x) * (s2.endPoint.y - s2.startPoint.y)
      - (s1.endPoint.y - s1.startPoint.y) * (s2.endPoint.x - s2.startPoint.x))))).y := by
    simp only [along]
    field_simp
    ring
  simp only [dist2, setZ0, hx, hy]
  norm_num

theorem nearestOn_along (a b p : AcGePoint3d) :
    ∃ c : ℚ, 0 ≤ c ∧ c ≤ 1 ∧ nearestOn a b p = along ⟨a, b⟩ c := by
  by_cases h0 : dist2 b a = 0
  · refine ⟨0, le_rfl, zero_le_one, ?_⟩
    simp [nearestOn, h0, along]
  · refine ⟨max 0 (min 1 (((p.x - a.x) * (b.x - a.x) + (p.y - a.y) * (b.y - a.y)
        + (p.z - a.z) * (b.z - a.z)) / dist2 b a)), le_max_left _ _,
      max_le zero_le_one (min_le_left _ _), ?_⟩
    simp [nearestOn, h0, along]

theorem dist2_setZ0_le (p q : AcGePoint3d) : dist2 (setZ0 p) (setZ0 q) ≤ dist2 p q := by
  simp only [dist2, setZ0]
  nlinarith [sq_nonneg (p.z - q.z)]

theorem dist2_comm (p q : AcGePoint3d) : dist2 p q = dist2 q p := by
  simp only [dist2]
  ring

theorem along_zero (s : AcGeLineSeg3d) : along s 0 = s.startPoint := by
  simp [along]

theorem along_one (s : AcGeLineSeg3d) : along s 1 = s.endPoint := by
  simp [along]

/-- The tolerance-aware intersection test reports nothing for segments farther apart than
0.01. -/
theorem tolCollab_intersectSound : IntersectSound tolCollab := by
  intro s1 s2 ipt h
  have key1 : ∀ (s : AcGeLineSeg3d) (p : AcGePoint3d),
      segDist2 s.startPoint s.endPoint p ≤ tol.equalPoint ^ 2 →
      ∃ c : ℚ, 0 ≤ c ∧ c ≤ 1 ∧ dist2 (setZ0 (along s c)) (setZ0 p) ≤ (1 / 100) ^ 2 := by
    intro s p hp
    obtain ⟨c, c0, c1, hc⟩ := nearestOn_along s.startPoint s.endPoint p
    refine ⟨c, c0, c1, le_trans (dist2_setZ0_le _ _) ?_⟩
    rw [dist2_comm, ← hc]
    simpa [segDist2, tol] using hp
  cases hex : refIntersectWith s1 s2 tol with
  | some q => exact refCollab_intersectSound s1 s2 q hex
  | none =>
    simp only [tolCollab, tolIntersectWith, hex] at h
    split_ifs at h with h1 h2 h3 h4
    · obtain ⟨c, c0, c1, hc⟩ := key1 s1 _ h1
      exact ⟨c, 0, c0, c1, le_rfl, zero_le_one, by rw [along_zero]; exact hc⟩
    · obtain ⟨c, c0, c1, hc⟩ := key1 s1 _ h2
      exact ⟨c, 1, c0, c1, zero_le_one, le_rfl, by rw [along_one]; exact hc⟩
    · obtain ⟨d, d0, d1, hd⟩ := key1 s2 _ h3
      exact ⟨0, d, le_rfl, zero_le_one, d0, d1, by rw [along_zero, dist2_comm]; exact hd⟩
    · obtain ⟨d, d0, d1, hd⟩ := key1 s2 _ h4
      exact ⟨1, d, zero_le_one, le_rfl, d0, d1, by rw [along_one, dist2_comm]; exact hd⟩

theorem walkEdges_eq (G : Collab) (v0 : AcGePoint3d) (rest : List AcGePoint3d) :
    edgesFrom (setZ0 v0) (walked G v0 rest) = walkEdges G v0 rest := by
  simp only [walked, walkEdges, bAddOf, cycleEdges]
  cases G.isEqualTo (lastOf v0 rest) (setZ0 v0) tol <;> simp

/-- C12 as stated fails: the query point `wedgeQuery2` passes the bounding box of `wedge 0`
and lies within the tolerance on the closing edge from the last vertex to the first, but
the call returns false. -/
theorem C12_counterexample :
    3 ≤ (wedge 0).length
      ∧ boxReject refCollab wedgeQuery2 (boxOf ⟨0, 0, 0⟩
          [⟨1, -10, 0⟩, ⟨-10, -10, 0⟩, ⟨-10, 10, 0⟩, ⟨1, 10, 0⟩, ⟨0, 8 / 1000, 0⟩]) = false
      ∧ IsEdge (wedge 0) ⟨0, 8 / 1000, 0⟩ ⟨0, 0, 0⟩
      ∧ refCollab.isOn ⟨⟨0, 8 / 1000, 0⟩, ⟨0, 0, 0⟩⟩ (setZ0 wedgeQuery2) tol = true
      ∧ IsPtInArea refCollab wedgeQuery2 (wedge 0) = some (false, wedge 0) := by
  refine ⟨by decide, ?_, Or.inr ⟨_, rfl, rfl⟩, ?_, ?_⟩
  · norm_num [boxOf, boxInit, boxStep, boxReject, refCollab, refCompfloat, wedgeQuery2]
  · norm_num [refCollab, refIsOn, segDist2, nearestOn, dist2, wedgeQuery2, setZ0, tol]
  · rw [IsPtInArea_eq]
    norm_num [result, walked, ray, lastOf, wedge, wedgeQuery2, boxOf, boxInit, boxStep,
      boxReject, refCollab, refCompfloat, refIsEqualTo, refIsOn, refIntersectWith, scan,
      crossing, setZ0, tol, dist2, segDist2, nearestOn]

/-- C12, amended: for every polygon with at least 3 vertices and every query point that
passes the bounding box, `IsPtInArea` returns true if and only if either some edge that the
loop walks (the consecutive vertex pairs, and the closing edge when the closure step
appends the first vertex) has the query point equal to its start point or on it within
tolerance, or no such edge exists and the crossings counted over all walked edges are odd
in number; the position of the matching edge plays no role. -/
theorem C12_walk_result (G : Collab) (v0 : AcGePoint3d) (rest : List AcGePoint3d)
    (h3 : 3 ≤ (v0 :: rest).length) (pt : AcGePoint3d)
    (hpass : boxReject G pt (boxOf v0 rest) = false) :
    ∃ r : Bool, IsPtInArea G pt (v0 :: rest) = some (r, v0 :: rest)
      ∧ (r = true ↔
        ((∃ e ∈ walkEdges G v0 rest,
            G.isEqualTo (setZ0 pt) e.startPoint tol = true ∨ G.isOn e (setZ0 pt) tol = true)
          ∨ ((¬ ∃ e ∈ walkEdges G v0 rest,
              G.isEqualTo (setZ0 pt) e.startPoint tol = true ∨ G.isOn e (setZ0 pt) tol = true)
            ∧ crossings G (ray pt (boxOf v0 rest)) (walkEdges G v0 rest) % 2 = 1))) := by
  refine ⟨result G pt (v0 :: rest), IsPtInArea_eq _ _ _, ?_⟩
  rw [result_cons G pt v0 rest h3, hpass, scan_eq, walkEdges_eq]
  simp only [Bool.not_false, Bool.true_and, Bool.or_eq_true, List.any_eq_true, hit,
    decide_eq_true_eq, Nat.zero_add]
  constructor
  · rintro (h | h)
    · exact Or.inl h
    · by_cases hex : ∃ e ∈ walkEdges G v0 rest,
          G.isEqualTo (setZ0 pt) e.startPoint tol = true ∨ G.isOn e (setZ0 pt) tol = true
      · exact Or.inl hex
      · exact Or.inr ⟨hex, by omega⟩
  · rintro (h | ⟨_, h⟩)
    · exact Or.inl h
    · exact Or.inr (by omega)

theorem C12_walk_result_witness :
    ∃ r : Bool, IsPtInArea refCollab ⟨5, 5, 0⟩ square = some (r, square)
      ∧ (r = true ↔
        ((∃ e ∈ walkEdges refCollab ⟨0, 0, 0⟩ [⟨10, 0, 0⟩, ⟨10, 10, 0⟩, ⟨0, 10, 0⟩],
            refCollab.isEqualTo (setZ0 ⟨5, 5, 0⟩) e.startPoint tol = true
              ∨ refCollab.isOn e (setZ0 ⟨5, 5, 0⟩) tol = true)
          ∨ ((¬ ∃ e ∈ walkEdges refCollab ⟨0, 0, 0⟩ [⟨10, 0, 0⟩, ⟨10, 10, 0⟩, ⟨0, 10, 0⟩],
              refCollab.isEqualTo (setZ0 ⟨5, 5, 0⟩) e.startPoint tol = true
                ∨ refCollab.isOn e (setZ0 ⟨5, 5, 0⟩) tol = true)
            ∧ crossings refCollab (ray ⟨5, 5, 0⟩
                (boxOf ⟨0, 0, 0⟩ [⟨10, 0, 0⟩, ⟨10, 10, 0⟩, ⟨0, 10, 0⟩]))
              (walkEdges refCollab ⟨0, 0, 0⟩ [⟨10, 0, 0⟩, ⟨10, 10, 0⟩, ⟨0, 10, 0⟩]) % 2 = 1))) :=
  C12_walk_result refCollab ⟨0, 0, 0⟩ [⟨10, 0, 0⟩, ⟨10, 10, 0⟩, ⟨0, 10, 0⟩] (by decide)
    ⟨5, 5, 0⟩ (by norm_num [boxOf, boxInit, boxStep, boxReject, refCollab, refCompfloat])

/-! ## Counting rule -/

/-- C13 as stated fails when the intersection point coincides with both end points: the ray
at height 0.002 meets the edge from (0, 0) to (0, 0.005) at (0, 0.002), which coincides
with `p2` within tolerance while `p1.y > ipt.y` is false, and the crossing is counted,
because the test against `p1` comes first. -/
theorem C13_counterexample :
    refCollab.intersectWith ⟨⟨-1, 2 / 1000, 0⟩, ⟨10, 2 / 1000, 0⟩⟩
        ⟨⟨0, 0, 0⟩, ⟨0, 5 / 1000, 0⟩⟩ tol = some ⟨0, 2 / 1000, 0⟩
      ∧ refCollab.isEqualTo ⟨0, 2 / 1000, 0⟩ ⟨0, 5 / 1000, 0⟩ tol = true
      ∧ ¬ ((0 : ℚ) > 2 / 1000)
      ∧ crossing refCollab ⟨⟨-1, 2 / 1000, 0⟩, ⟨10, 2 / 1000, 0⟩⟩ ⟨0, 0, 0⟩ ⟨0, 5 / 1000, 0⟩
          = 1 := by
  refine ⟨?_, ?_, by norm_num, ?_⟩
  · norm_num [refCollab, refIntersectWith]
  · norm_num [refCollab, refIsEqualTo, dist2, tol]
  · norm_num [crossing, refCollab, refIntersectWith, refIsEqualTo, dist2, tol]

/-- C13, amended: an edge with no intersection adds 0 to the count; an edge whose
intersection point `ipt` coincides with `p1` adds 1 exactly when `p2.y > ipt.y`; an edge
whose `ipt` does not coincide with `p1` but coincides with `p2` adds 1 exactly when
`p1.y > ipt.y`; an edge whose `ipt` coincides with neither end point adds 1. -/
theorem C13_three_case_rule (G : Collab) (lineseg3d : AcGeLineSeg3d) (p1 p2 : AcGePoint3d) :
    (G.intersectWith lineseg3d ⟨p1, p2⟩ tol = none → crossing G lineseg3d p1 p2 = 0)
      ∧ ∀ ipt : AcGePoint3d, G.intersectWith lineseg3d ⟨p1, p2⟩ tol = some ipt →
        (G.isEqualTo ipt p1 tol = true →
            crossing G lineseg3d p1 p2 = if p2.y > ipt.y then 1 else 0)
          ∧ (G.isEqualTo ipt p1 tol = false → G.isEqualTo ipt p2 tol = true →
            crossing G lineseg3d p1 p2 = if p1.y > ipt.y then 1 else 0)
          ∧ (G.isEqualTo ipt p1 tol = false → G.isEqualTo ipt p2 tol = false →
            crossing G lineseg3d p1 p2 = 1) := by
  constructor
  · intro h
    simp [crossing, h]
  · intro ipt h
    refine ⟨?_, ?_, ?_⟩
    · intro h1
      simp [crossing, h, h1]
    · intro h1 h2
      simp [crossing, h, h1, h2]
    · intro h1 h2
      simp [crossing, h, h1, h2]

theorem C13_three_case_rule_witness :
    crossing refCollab ⟨⟨-1, 2 / 1000, 0⟩, ⟨10, 2 / 1000, 0⟩⟩ ⟨0, 0, 0⟩ ⟨0, 5 / 1000, 0⟩
      = if (5 / 1000 : ℚ) > 2 / 1000 then 1 else 0 :=
  ((C13_three_case_rule refCollab ⟨⟨-1, 2 / 1000, 0⟩, ⟨10, 2 / 1000, 0⟩⟩ ⟨0, 0, 0⟩
    ⟨0, 5 / 1000, 0⟩).2 ⟨0, 2 / 1000, 0⟩ (by norm_num [refCollab, refIntersectWith])).1
    (by norm_num [refCollab, refIsEqualTo, dist2, tol])

/-- C14 as stated fails: the ray from (1, 2) passes exactly through the vertex (2, 2) of
the notched polygon, both the edge from (4, 4) and the edge to (0, 4) report the
intersection at (2, 2), and both count it, since both neighbours lie above the ray. -/
theorem C14_counterexample :
    refCollab.intersectWith ⟨⟨1, 2, 0⟩, ⟨14, 2, 0⟩⟩ ⟨⟨4, 4, 0⟩, ⟨2, 2, 0⟩⟩ tol
        = some ⟨2, 2, 0⟩
      ∧ refCollab.intersectWith ⟨⟨1, 2, 0⟩, ⟨14, 2, 0⟩⟩ ⟨⟨2, 2, 0⟩, ⟨0, 4, 0⟩⟩ tol
        = some ⟨2, 2, 0⟩
      ∧ crossing refCollab ⟨⟨1, 2, 0⟩, ⟨14, 2, 0⟩⟩ ⟨4, 4, 0⟩ ⟨2, 2, 0⟩ = 1
      ∧ crossing refCollab ⟨⟨1, 2, 0⟩, ⟨14, 2, 0⟩⟩ ⟨2, 2, 0⟩ ⟨0, 4, 0⟩ = 1 := by
  refine ⟨?_, ?_, ?_, ?_⟩
  · norm_num [refCollab, refIntersectWith]
  · norm_num [refCollab, refIntersectWith]
  · norm_num [crossing, refCollab, refIntersectWith, refIsEqualTo, dist2, tol]
  · norm_num [crossing, refCollab, refIntersectWith, refIsEqualTo, dist2, tol]

/-- C14, amended: when both edges `(a, v)` and `(v, b)` report the intersection at the
shared vertex `v`, and `a` is not equal to `v` within tolerance, the edge `(a, v)` counts
the crossing exactly when `a` is strictly above the ray and the edge `(v, b)` exactly when
`b` is strictly above the ray; so exactly one of the two edges counts it if and only if
exactly one of the two neighbours is strictly above the ray. -/
theorem C14_shared_vertex (G : Collab) (lineseg3d : AcGeLineSeg3d) (a v b : AcGePoint3d)
    (ha : G.intersectWith lineseg3d ⟨a, v⟩ tol = some v)
    (hb : G.intersectWith lineseg3d ⟨v, b⟩ tol = some v)
    (hrefl : G.isEqualTo v v tol = true) (hav : G.isEqualTo v a tol = false) :
    crossing G lineseg3d a v = (if a.y > v.y then 1 else 0)
      ∧ crossing G lineseg3d v b = (if b.y > v.y then 1 else 0)
      ∧ (crossing G lineseg3d a v + crossing G lineseg3d v b = 1
        ↔ ((a.y > v.y ∧ ¬ b.y > v.y) ∨ (¬ a.y > v.y ∧ b.y > v.y))) := by
  have h1 : crossing G lineseg3d a v = (if a.y > v.y then 1 else 0) := by
    simp [crossing, ha, hav, hrefl]
  have h2 : crossing G lineseg3d v b = (if b.y > v.y then 1 else 0) := by
    simp [crossing, hb, hrefl]
  refine ⟨h1, h2, ?_⟩
  rw [h1, h2]
  by_cases p : a.y > v.y <;> by_cases q : b.y > v.y <;> simp [p, q]

theorem C14_shared_vertex_witness :
    crossing refCollab ⟨⟨1, 2, 0⟩, ⟨14, 2, 0⟩⟩ ⟨4, 4, 0⟩ ⟨2, 2, 0⟩
        = (if (4 : ℚ) > 2 then 1 else 0)
      ∧ crossing refCollab ⟨⟨1, 2, 0⟩, ⟨14, 2, 0⟩⟩ ⟨2, 2, 0⟩ ⟨4, 0, 0⟩
        = (if (0 : ℚ) > 2 then 1 else 0)
      ∧ (crossing refCollab ⟨⟨1, 2, 0⟩, ⟨14, 2, 0⟩⟩ ⟨4, 4, 0⟩ ⟨2, 2, 0⟩
          + crossing refCollab ⟨⟨1, 2, 0⟩, ⟨14, 2, 0⟩⟩ ⟨2, 2, 0⟩ ⟨4, 0, 0⟩ = 1
        ↔ (((4 : ℚ) > 2 ∧ ¬ (0 : ℚ) > 2) ∨ (¬ (4 : ℚ) > 2 ∧ (0 : ℚ) > 2))) :=
  C14_shared_vertex refCollab ⟨⟨1, 2, 0⟩, ⟨14, 2, 0⟩⟩ ⟨4, 4, 0⟩ ⟨2, 2, 0⟩ ⟨4, 0, 0⟩
    (by norm_num [refCollab, refIntersectWith]) (by norm_num [refCollab, refIntersectWith])
    (refCollab_refl _) (by norm_num [refCollab, refIsEqualTo, dist2, tol])

/-! ## Closure step, array accesses and the ray -/

theorem leaveLog_eq (bAdd : Bool) (arr orig : List AcGePoint3d) (r : Bool)
    (log : List Mutation) (h : leave bAdd arr r = some (r, orig)) :
    leaveLog bAdd arr r log
      = some (r, orig, if bAdd then log ++ [Mutation.removeLast] else log) := by
  cases bAdd with
  | false =>
    simp only [leave, Bool.false_eq_true, if_false, Option.some.injEq, Prod.mk.injEq,
      true_and] at h
    simp [leaveLog, h]
  | true =>
    simp only [leave, if_true] at h
    simp only [leaveLog, if_true]
    cases hrm : removeLast arr with
    | none => simp [hrm] at h
    | some a =>
      simp only [hrm, Option.some.injEq, Prod.mk.injEq, true_and] at h
      simp [h]

theorem edgeLoopLog_eq (G : Collab) (pt : AcGePoint3d) (ls : AcGeLineSeg3d) (bAdd : Bool)
    (arr orig : List AcGePoint3d) (log : List Mutation)
    (hleave : ∀ r, leave bAdd arr r = some (r, orig)) :
    ∀ (k i : Nat) (p1 : AcGePoint3d) (n : Nat), i + k = arr.length →
      edgeLoopLog G pt ls bAdd arr log k i p1 n
        = some (scan G pt ls p1 (arr.drop i) n, orig,
            if bAdd then log ++ [Mutation.removeLast] else log) := by
  intro k
  induction k with
  | zero =>
    intro i p1 n h
    have : arr.drop i = [] := List.drop_eq_nil_of_le (by omega)
    by_cases hn : n % 2 = 0 <;>
      simp [edgeLoopLog, scan, this, hn, leaveLog_eq bAdd arr orig _ log (hleave _)]
  | succ k ih =>
    intro i p1 n h
    have hi : i < arr.length := by omega
    have hd : arr.drop i = arr[i] :: arr.drop (i + 1) := List.drop_eq_getElem_cons hi
    simp only [edgeLoopLog, List.getElem?_eq_getElem hi]
    rw [hd]
    simp only [scan]
    by_cases h1 : G.isEqualTo pt p1 tol = true
    · simp [h1, leaveLog_eq bAdd arr orig _ log (hleave _)]
    · by_cases h2 : G.isOn ⟨p1, setZ0 arr[i]⟩ pt tol = true
      · simp [h1, h2, leaveLog_eq bAdd arr orig _ log (hleave _)]
      · simp only [h1, h2, if_false, Bool.false_eq_true]
        exact ih (i + 1) _ _ (by omega)

/-- The logged call never fails, returns what `IsPtInArea` returns, and logs `mutations`. -/
theorem IsPtInAreaLog_eq (G : Collab) (pt : AcGePoint3d) (arr : List AcGePoint3d) :
    IsPtInAreaLog G pt arr = some (result G pt arr, arr, mutations G pt arr) := by
  cases arr with
  | nil => simp [IsPtInAreaLog, result, mutations]
  | cons v0 rest =>
    by_cases hlen : (v0 :: rest).length < 3
    · have hlen2 : rest.length + 1 < 3 := by simpa using hlen
      simp [IsPtInAreaLog, result, mutations, hlen2]
    · have hbox : boxLoop (v0 :: rest) ((v0 :: rest).length - 1) 1 (boxInit v0)
          = some (boxOf v0 rest) := by
        rw [boxLoop_eq (v0 :: rest) _ 1 _ (by simp; omega)]
        simp [boxOf]
      have hlast : (v0 :: rest)[(v0 :: rest).length - 1]? = some (lastOf v0 rest) := by
        simpa using getElem?_lastOf v0 rest
      unfold IsPtInAreaLog result mutations
      simp only [hlen, if_false, List.getElem?_cons_zero, hbox, hlast]
      by_cases hr : boxReject G pt (boxOf v0 rest) = true
      · simp [hr]
      · simp only [hr, if_false, Bool.false_eq_true, bAddOf]
        by_cases hc : G.isEqualTo (lastOf v0 rest) (setZ0 v0) tol = true
        · simp only [hc, Bool.not_true, if_false, Bool.false_eq_true, if_true, walked, ray]
          rw [edgeLoopLog_eq G _ _ false (v0 :: rest) (v0 :: rest) [] (fun r => by simp [leave])
            _ 1 _ _ (by simp; omega)]
          simp
        · simp only [hc, Bool.not_false, if_true, if_false, Bool.false_eq_true, walked, ray]
          rw [edgeLoopLog_eq G _ _ true (v0 :: rest ++ [setZ0 v0]) (v0 :: rest)
            [Mutation.append] (fun r => leave_true_append _ _ r) _ 1 _ _ (by simp; omega)]
          simp

/-- C15: the closure step extends a polygon whose last vertex is identical to its first
vertex: for the explicitly closed triangle `raisedClosed` at height 5 the call appends the
closing vertex (and removes it again), because line 57 compares the last vertex with the
first vertex flattened to `z = 0`. -/
theorem C15_identical_last_vertex_extended :
    raisedClosed.getLast? = raisedClosed.head?
      ∧ boxReject refCollab ⟨5, 2, 5⟩ (boxOf ⟨0, 0, 5⟩ [⟨10, 0, 5⟩, ⟨10, 10, 5⟩, ⟨0, 0, 5⟩])
        = false
      ∧ bAddOf refCollab ⟨0, 0, 5⟩ [⟨10, 0, 5⟩, ⟨10, 10, 5⟩, ⟨0, 0, 5⟩] = true
      ∧ ∃ r : Bool, IsPtInAreaLog refCollab ⟨5, 2, 5⟩ raisedClosed
        = some (r, raisedClosed, [Mutation.append, Mutation.removeLast]) := by
  have hrej : boxReject refCollab ⟨5, 2, 5⟩
      (boxOf ⟨0, 0, 5⟩ [⟨10, 0, 5⟩, ⟨10, 10, 5⟩, ⟨0, 0, 5⟩]) = false := by
    norm_num [boxOf, boxInit, boxStep, boxReject, refCollab, refCompfloat]
  have hadd : bAddOf refCollab ⟨0, 0, 5⟩ [⟨10, 0, 5⟩, ⟨10, 10, 5⟩, ⟨0, 0, 5⟩] = true := by
    norm_num [bAddOf, lastOf, refCollab, refIsEqualTo, dist2, setZ0, tol]
  refine ⟨rfl, hrej, hadd, result refCollab ⟨5, 2, 5⟩ raisedClosed, ?_⟩
  rw [IsPtInAreaLog_eq]
  simp [mutations, raisedClosed, hrej, hadd]

/-- C19: for every polygon, of any length, and every query point the call completes: no
array access is out of bounds and `removeLast` is never called on an empty array; and the
array is changed either not at all or by exactly one `append` followed by exactly one
`removeLast`. -/
theorem C19_accesses_in_bounds (G : Collab) (pt : AcGePoint3d) (arr : List AcGePoint3d) :
    ∃ (r : Bool) (log : List Mutation),
      IsPtInAreaLog G pt arr = some (r, arr, log)
        ∧ IsPtInArea G pt arr = some (r, arr)
        ∧ (log = [] ∨ log = [Mutation.append, Mutation.removeLast]) := by
  refine ⟨result G pt arr, mutations G pt arr, IsPtInAreaLog_eq G pt arr,
    IsPtInArea_eq G pt arr, ?_⟩
  cases arr with
  | nil => left; rfl
  | cons v0 rest =>
    simp only [mutations]
    split_ifs
    · left; rfl
    · left; rfl
    · right; rfl
    · left; rfl

/-- The call on a polygon with at least 3 vertices that passes the bounding box: the second
loop runs with the ray `ray pt (boxOf v0 rest)` and the flag `bAddOf G v0 rest`. -/
theorem IsPtInArea_walk (G : Collab) (pt v0 : AcGePoint3d) (rest : List AcGePoint3d)
    (h3 : 3 ≤ (v0 :: rest).length) (hpass : boxReject G pt (boxOf v0 rest) = false) :
    IsPtInArea G pt (v0 :: rest)
      = edgeLoop G (setZ0 pt) (ray pt (boxOf v0 rest)) (bAddOf G v0 rest)
          (if bAddOf G v0 rest then v0 :: rest ++ [setZ0 v0] else v0 :: rest)
          (if bAddOf G v0 rest then (v0 :: rest).length else (v0 :: rest).length - 1)
          1 (setZ0 v0) 0 := by
  have hlen : ¬ (v0 :: rest).length < 3 := by omega
  have hbox : boxLoop (v0 :: rest) ((v0 :: rest).length - 1) 1 (boxInit v0)
      = some (boxOf v0 rest) := by
    rw [boxLoop_eq (v0 :: rest) _ 1 _ (by simp; omega)]
    simp [boxOf]
  have hlast : (v0 :: rest)[(v0 :: rest).length - 1]? = some (lastOf v0 rest) := by
    simpa using getElem?_lastOf v0 rest
  unfold IsPtInArea
  simp only [hlen, if_false, List.getElem?_cons_zero, hbox, hlast, hpass, Bool.false_eq_true,
    bAddOf, ray]
  by_cases hc : G.isEqualTo (lastOf v0 rest) (setZ0 v0) tol = true
  · simp [hc]
  · have hc2 : G.isEqualTo (lastOf v0 rest) (setZ0 v0) tol = false := by simpa using hc
    simp [hc2]

/-- In exact arithmetic, whenever the ray is built (at least 3 vertices, bounding box
passed), the second loop runs with a ray that starts at the flattened query point and whose
far end point has the y of the query point, an x that exceeds the x of every vertex by at
least 10, and an x strictly greater than the x of the query point; the far end point lies
outside the bounding box. The comparator is assumed to report "greater" when its first
argument exceeds the second by 10 or more. This is a statement about `ray`, where the sum
of line 44 is not rounded; for the sum as a `double` see `rayDouble`. -/
theorem ray_points_right_exact (G : Collab)
    (hcmp : ∀ a b : ℚ, b + 10 ≤ a → 0 < G.Compfloat a b)
    (v0 : AcGePoint3d) (rest : List AcGePoint3d) (h3 : 3 ≤ (v0 :: rest).length)
    (pt : AcGePoint3d) (hpass : boxReject G pt (boxOf v0 rest) = false) :
    IsPtInArea G pt (v0 :: rest)
        = edgeLoop G (setZ0 pt) (ray pt (boxOf v0 rest)) (bAddOf G v0 rest)
          (if bAddOf G v0 rest then v0 :: rest ++ [setZ0 v0] else v0 :: rest)
          (if bAddOf G v0 rest then (v0 :: rest).length else (v0 :: rest).length - 1)
          1 (setZ0 v0) 0
      ∧ (ray pt (boxOf v0 rest)).startPoint = setZ0 pt
      ∧ (ray pt (boxOf v0 rest)).endPoint.y = pt.y
      ∧ (∀ v ∈ v0 :: rest, v.x + 10 ≤ (ray pt (boxOf v0 rest)).endPoint.x)
      ∧ pt.x < (ray pt (boxOf v0 rest)).endPoint.x
      ∧ ¬ (boxOf v0 rest).Holds (ray pt (boxOf v0 rest)).endPoint.x
          (ray pt (boxOf v0 rest)).endPoint.y := by
  refine ⟨IsPtInArea_walk G pt v0 rest h3 hpass, rfl, rfl, ?_, ?_, ?_⟩
  · intro v hv
    obtain ⟨_, h2, _, _⟩ := boxOf_holds v0 rest v hv
    simp only [ray]
    linarith
  · simp only [ray]
    by_contra hge
    have hpos := hcmp pt.x (boxOf v0 rest).dblMaxX (by linarith)
    simp only [boxReject, Bool.or_eq_false_iff, decide_eq_false_iff_not, not_lt,
      gt_iff_lt] at hpass
    have := hpass.1.1.1
    omega
  · intro h
    have := h.2.1
    simp only [ray] at this
    linarith

theorem ray_points_right_exact_witness :
    (ray ⟨5, 5, 0⟩ (boxOf ⟨0, 0, 0⟩ [⟨10, 0, 0⟩, ⟨10, 10, 0⟩, ⟨0, 10, 0⟩])).endPoint.y = 5
      ∧ (5 : ℚ) < (ray ⟨5, 5, 0⟩
          (boxOf ⟨0, 0, 0⟩ [⟨10, 0, 0⟩, ⟨10, 10, 0⟩, ⟨0, 10, 0⟩])).endPoint.x :=
  have h := ray_points_right_exact refCollab
    (fun a b hab => refCompfloat_gt a b (by linarith))
    ⟨0, 0, 0⟩ [⟨10, 0, 0⟩, ⟨10, 10, 0⟩, ⟨0, 10, 0⟩] (by decide) ⟨5, 5, 0⟩
    (by norm_num [boxOf, boxInit, boxStep, boxReject, refCollab, refCompfloat])
  ⟨h.2.2.1, h.2.2.2.2.1⟩

theorem roundDouble_of_pos (x : ℚ) (e f : ℤ) (hx : 0 < x) (he : Int.log 2 x = e)
    (hf : ⌊x / (2 : ℚ) ^ (e - 52)⌋ = f) (hfrac : x / (2 : ℚ) ^ (e - 52) - f < 1 / 2) :
    roundDouble x = f * (2 : ℚ) ^ (e - 52) := by
  have hx0 : x ≠ 0 := ne_of_gt hx
  have hnn : ¬ x < 0 := not_lt.mpr hx.le
  simp only [roundDouble, hx0, if_false, abs_of_pos hx, he, hf, hfrac, if_true, hnn, one_mul]

theorem log_two_of_nat (n : ℕ) (h1 : 2 ^ 59 ≤ n) (h2 : n < 2 ^ 60) :
    Int.log 2 (n : ℚ) = 59 := by
  have hn : (1 : ℚ) ≤ (n : ℚ) := by
    have : 1 ≤ n := le_trans (by norm_num) h1
    exact_mod_cast this
  rw [Int.log_of_one_le_right 2 hn, Nat.floor_natCast]
  have : Nat.log 2 n = 59 := by
    rw [Nat.log_eq_iff (Or.inl (by decide))]
    exact ⟨h1, h2⟩
  rw [this]
  rfl

/-- In `double` arithmetic `1e18 + 10.0` is `1e18`: the spacing of the `double` values
around `10 ^ 18` is 128. -/
theorem roundDouble_ten_pow_add : roundDouble ((10 : ℚ) ^ 18 + 10) = 10 ^ 18 := by
  have hlog : Int.log 2 ((10 : ℚ) ^ 18 + 10) = 59 := by
    have h := log_two_of_nat (10 ^ 18 + 10) (by norm_num) (by norm_num)
    have hc : (((10 ^ 18 + 10 : ℕ)) : ℚ) = (10 : ℚ) ^ 18 + 10 := by norm_num
    rw [hc] at h
    exact h
  rw [roundDouble_of_pos ((10 : ℚ) ^ 18 + 10) 59 7812500000000000 (by norm_num) hlog ?_ ?_]
  · norm_num
  · rw [Int.floor_eq_iff]
    constructor <;> norm_num
  · norm_num

/-- The number `10 ^ 18` is a `double` value. -/
theorem roundDouble_ten_pow : roundDouble ((10 : ℚ) ^ 18) = 10 ^ 18 := by
  have hlog : Int.log 2 ((10 : ℚ) ^ 18) = 59 := by
    have h := log_two_of_nat (10 ^ 18) (by norm_num) (by norm_num)
    have hc : (((10 ^ 18 : ℕ)) : ℚ) = (10 : ℚ) ^ 18 := by norm_num
    rw [hc] at h
    exact h
  rw [roundDouble_of_pos ((10 : ℚ) ^ 18) 59 7812500000000000 (by norm_num) hlog ?_ ?_]
  · norm_num
  · rw [Int.floor_eq_iff]
    constructor <;> norm_num
  · norm_num

/-- C18: with the sum of line 44 computed as a `double`, the margin is lost for large
coordinates. For the triangle `hugeTriangle` and the query point `(1e18, 0)`, which passes
the bounding box, `dblMaxX + 10.0` is stored as `1e18`: the far end point of the ray is not
10 beyond the vertices with `x = 1e18`, not to the right of the query point, and it lies
in the bounding box, on its border. -/
theorem C18_margin_lost_in_double :
    3 ≤ hugeTriangle.length
      ∧ roundDouble ((10 : ℚ) ^ 18) = 10 ^ 18
      ∧ boxOf ⟨0, 0, 0⟩ [⟨10 ^ 18, 0, 0⟩, ⟨10 ^ 18, 10 ^ 18, 0⟩] = ⟨10 ^ 18, 0, 10 ^ 18, 0⟩
      ∧ boxReject refCollab ⟨10 ^ 18, 0, 0⟩ ⟨10 ^ 18, 0, 10 ^ 18, 0⟩ = false
      ∧ (rayDouble ⟨10 ^ 18, 0, 0⟩ ⟨10 ^ 18, 0, 10 ^ 18, 0⟩).endPoint.x = 10 ^ 18
      ∧ ¬ ((10 : ℚ) ^ 18 + 10
          ≤ (rayDouble ⟨10 ^ 18, 0, 0⟩ ⟨10 ^ 18, 0, 10 ^ 18, 0⟩).endPoint.x)
      ∧ ¬ ((10 : ℚ) ^ 18
          < (rayDouble ⟨10 ^ 18, 0, 0⟩ ⟨10 ^ 18, 0, 10 ^ 18, 0⟩).endPoint.x)
      ∧ Box.Holds ⟨10 ^ 18, 0, 10 ^ 18, 0⟩
          (rayDouble ⟨10 ^ 18, 0, 0⟩ ⟨10 ^ 18, 0, 10 ^ 18, 0⟩).endPoint.x
          (rayDouble ⟨10 ^ 18, 0, 0⟩ ⟨10 ^ 18, 0, 10 ^ 18, 0⟩).endPoint.y := by
  have hx : (rayDouble ⟨10 ^ 18, 0, 0⟩ ⟨10 ^ 18, 0, 10 ^ 18, 0⟩).endPoint.x = 10 ^ 18 := by
    simp only [rayDouble]
    exact roundDouble_ten_pow_add
  have hy : (rayDouble ⟨10 ^ 18, 0, 0⟩ ⟨10 ^ 18, 0, 10 ^ 18, 0⟩).endPoint.y = 0 := rfl
  refine ⟨by decide, roundDouble_ten_pow, ?_, ?_, hx, ?_, ?_, ?_⟩
  · norm_num [boxOf, boxInit, boxStep]
  · norm_num [boxReject, refCollab, refCompfloat]
  · rw [hx]
    norm_num
  · rw [hx]
    norm_num
  · rw [hx, hy]
    norm_num [Box.Holds]

/-! ## Traversal order and explicit closure -/

theorem edgesFrom_flat (l : List AcGePoint3d) :
    ∀ p : AcGePoint3d, edgesFrom p (l.map setZ0) = edgesFrom p l := by
  induction l with
  | nil => intro p; rfl
  | cons w l ih =>
    intro p
    simp only [List.map_cons, edgesFrom, setZ0_setZ0, ih]

theorem edgesFrom_snoc (l : List AcGePoint3d) :
    ∀ p a q : AcGePoint3d,
      edgesFrom p (l ++ [a] ++ [q]) = edgesFrom p (l ++ [a]) ++ [⟨setZ0 a, setZ0 q⟩] := by
  induction l with
  | nil => intro p a q; simp [edgesFrom]
  | cons w l ih =>
    intro p a q
    have h := ih (setZ0 w) a q
    show edgesFrom p (w :: (l ++ [a] ++ [q])) = edgesFrom p (w :: (l ++ [a])) ++ _
    simp only [edgesFrom, h, List.cons_append]

/-- The four extrema of the box of a list are coordinates of vertices of the list. -/
theorem foldl_boxStep_attained (S : List AcGePoint3d) (l : List AcGePoint3d) :
    ∀ b : Box, (∀ v ∈ l, v ∈ S) →
      ((∃ v ∈ S, v.x = b.dblMaxX) ∧ (∃ v ∈ S, v.x = b.dblMinX)
        ∧ (∃ v ∈ S, v.y = b.dblMaxY) ∧ (∃ v ∈ S, v.y = b.dblMinY)) →
      ((∃ v ∈ S, v.x = (l.foldl boxStep b).dblMaxX) ∧ (∃ v ∈ S, v.x = (l.foldl boxStep b).dblMinX)
        ∧ (∃ v ∈ S, v.y = (l.foldl boxStep b).dblMaxY)
        ∧ (∃ v ∈ S, v.y = (l.foldl boxStep b).dblMinY)) := by
  induction l with
  | nil => intro b _ h; simpa using h
  | cons w l ih =>
    intro b hl h
    simp only [List.foldl_cons]
    apply ih _ (fun v hv => hl v (by simp [hv]))
    have hw : w ∈ S := hl w (by simp)
    obtain ⟨h1, h2, h3, h4⟩ := h
    simp only [boxStep]
    refine ⟨?_, ?_, ?_, ?_⟩
    · split_ifs
      · exact ⟨w, hw, rfl⟩
      · exact h1
    · split_ifs
      · exact ⟨w, hw, rfl⟩
      · exact h2
    · split_ifs
      · exact ⟨w, hw, rfl⟩
      · exact h3
    · split_ifs
      · exact ⟨w, hw, rfl⟩
      · exact h4

/-- Two vertex lists with the same vertices have the same bounding box. -/
theorem boxOf_congr_mem (v0 w0 : AcGePoint3d) (rest rest2 : List AcGePoint3d)
    (h : ∀ v, v ∈ v0 :: rest ↔ v ∈ w0 :: rest2) : boxOf v0 rest = boxOf w0 rest2 := by
  have a1 := foldl_boxStep_attained (v0 :: rest) rest (boxInit v0)
    (fun v hv => by simp [hv])
    ⟨⟨v0, by simp, rfl⟩, ⟨v0, by simp, rfl⟩, ⟨v0, by simp, rfl⟩, ⟨v0, by simp, rfl⟩⟩
  have a2 := foldl_boxStep_attained (w0 :: rest2) rest2 (boxInit w0)
    (fun v hv => by simp [hv])
    ⟨⟨w0, by simp, rfl⟩, ⟨w0, by simp, rfl⟩, ⟨w0, by simp, rfl⟩, ⟨w0, by simp, rfl⟩⟩
  have b1 : ∀ v ∈ w0 :: rest2, (boxOf v0 rest).Holds v.x v.y :=
    fun v hv => boxOf_holds v0 rest v ((h v).mpr hv)
  have b2 : ∀ v ∈ v0 :: rest, (boxOf w0 rest2).Holds v.x v.y :=
    fun v hv => boxOf_holds w0 rest2 v ((h v).mp hv)
  have c1 : ∀ v ∈ v0 :: rest, (boxOf v0 rest).Holds v.x v.y := boxOf_holds v0 rest
  have c2 : ∀ v ∈ w0 :: rest2, (boxOf w0 rest2).Holds v.x v.y := boxOf_holds w0 rest2
  obtain ⟨⟨p1, hp1, e1⟩, ⟨p2, hp2, e2⟩, ⟨p3, hp3, e3⟩, ⟨p4, hp4, e4⟩⟩ := a1
  obtain ⟨⟨q1, hq1, f1⟩, ⟨q2, hq2, f2⟩, ⟨q3, hq3, f3⟩, ⟨q4, hq4, f4⟩⟩ := a2
  change p1.x = (boxOf v0 rest).dblMaxX at e1
  change p2.x = (boxOf v0 rest).dblMinX at e2
  change p3.y = (boxOf v0 rest).dblMaxY at e3
  change p4.y = (boxOf v0 rest).dblMinY at e4
  change q1.x = (boxOf w0 rest2).dblMaxX at f1
  change q2.x = (boxOf w0 rest2).dblMinX at f2
  change q3.y = (boxOf w0 rest2).dblMaxY at f3
  change q4.y = (boxOf w0 rest2).dblMinY at f4
  have g1 := b2 p1 hp1
  have g2 := b2 p2 hp2
  have g3 := b2 p3 hp3
  have g4 := b2 p4 hp4
  have k1 := b1 q1 hq1
  have k2 := b1 q2 hq2
  have k3 := b1 q3 hq3
  have k4 := b1 q4 hq4
  simp only [Box.Holds] at g1 g2 g3 g4 k1 k2 k3 k4
  have m1 : (boxOf v0 rest).dblMaxX = (boxOf w0 rest2).dblMaxX := by linarith [g1.2.1, k1.2.1]
  have m2 : (boxOf v0 rest).dblMinX = (boxOf w0 rest2).dblMinX := by linarith [g2.1, k2.1]
  have m3 : (boxOf v0 rest).dblMaxY = (boxOf w0 rest2).dblMaxY := by
    linarith [g3.2.2.2, k3.2.2.2]
  have m4 : (boxOf v0 rest).dblMinY = (boxOf w0 rest2).dblMinY := by
    linarith [g4.2.2.1, k4.2.2.1]
  cases hb : boxOf v0 rest
  cases hb2 : boxOf w0 rest2
  simp only [hb, hb2] at m1 m2 m3 m4
  simp [m1, m2, m3, m4]

/-- The cycle of edges of a rotated vertex list is a rearrangement of the cycle of edges of
the list. -/
theorem cycleEdges_rotate (v0 : AcGePoint3d) (rest : List AcGePoint3d) :
    ∀ (k : Nat) (w0 : AcGePoint3d) (rest2 : List AcGePoint3d),
      (v0 :: rest).rotate k = w0 :: rest2 →
      (cycleEdges w0 rest2).Perm (cycleEdges v0 rest) := by
  intro k
  induction k with
  | zero =>
    intro w0 rest2 h
    simp only [List.rotate_zero, List.cons.injEq] at h
    obtain ⟨rfl, rfl⟩ := h
    exact List.Perm.refl _
  | succ k ih =>
    intro w0 rest2 h
    rw [← List.rotate_rotate] at h
    cases hu : (v0 :: rest).rotate k with
    | nil =>
      have := congrArg List.length hu
      simp at this
    | cons u0 urest =>
      have hperm := ih u0 urest hu
      rw [hu] at h
      cases urest with
      | nil =>
        simp only [List.rotate_singleton, List.cons.injEq] at h
        obtain ⟨rfl, rfl⟩ := h
        exact hperm
      | cons u1 ur =>
        simp only [List.rotate_cons_succ, List.rotate_zero, List.cons_append,
          List.cons.injEq] at h
        obtain ⟨rfl, rfl⟩ := h
        refine List.Perm.trans ?_ hperm
        have e1 : cycleEdges u1 (ur ++ [u0])
            = edgesFrom (setZ0 u1) (ur ++ [u0]) ++ [⟨setZ0 u0, setZ0 u1⟩] := by
          simp only [cycleEdges]
          rw [edgesFrom_snoc, setZ0_setZ0]
        have e2 : cycleEdges u0 (u1 :: ur)
            = ⟨setZ0 u0, setZ0 u1⟩ :: edgesFrom (setZ0 u1) (ur ++ [u0]) := by
          have hflat : edgesFrom (setZ0 u1) (ur ++ [setZ0 u0])
              = edgesFrom (setZ0 u1) (ur ++ [u0]) := by
            rw [← edgesFrom_flat (ur ++ [setZ0 u0]), ← edgesFrom_flat (ur ++ [u0])]
            simp [setZ0_setZ0]
          show edgesFrom (setZ0 u0) (u1 :: (ur ++ [setZ0 u0])) = _
          simp only [edgesFrom, hflat]
        rw [e1, e2]
        exact List.perm_append_singleton _ _

theorem any_hit_perm (G : Collab) (pt : AcGePoint3d) (es fs : List AcGeLineSeg3d)
    (h : es.Perm fs) : es.any (hit G pt) = fs.any (hit G pt) := by
  rw [Bool.eq_iff_iff, List.any_eq_true, List.any_eq_true]
  constructor
  · rintro ⟨e, he, hh⟩
    exact ⟨e, h.mem_iff.mp he, hh⟩
  · rintro ⟨e, he, hh⟩
    exact ⟨e, h.mem_iff.mpr he, hh⟩

theorem crossings_perm (G : Collab) (ls : AcGeLineSeg3d) (es fs : List AcGeLineSeg3d)
    (h : es.Perm fs) : crossings G ls es = crossings G ls fs := by
  simp only [crossings]
  exact (h.map _).sum_eq

/-- The result for a polygon with at least 3 vertices for which the closure step appends
the first vertex. -/
theorem result_open (G : Collab) (pt v0 : AcGePoint3d) (rest : List AcGePoint3d)
    (h3 : 3 ≤ (v0 :: rest).length) (hopen : bAddOf G v0 rest = true) :
    result G pt (v0 :: rest) = (!boxReject G pt (boxOf v0 rest)
      && ((cycleEdges v0 rest).any (hit G (setZ0 pt))
        || oddCrossings G (ray pt (boxOf v0 rest)) (cycleEdges v0 rest))) := by
  rw [result_cons G pt v0 rest h3, scan_eq, walkEdges_eq]
  simp [walkEdges, hopen, oddCrossings]

/-- C16 as stated fails: for the polygon `wedge 0`, whose last vertex equals its first
within tolerance, the query point `wedgeQuery` gets false, and it gets true for the same
vertices rotated by one position, where the short edge between these two vertices is
walked. -/
theorem C16_counterexample :
    3 ≤ (wedge 0).length
      ∧ IsPtInArea refCollab wedgeQuery (wedge 0) = some (false, wedge 0)
      ∧ IsPtInArea refCollab wedgeQuery ((wedge 0).rotate 1) = some (true, (wedge 0).rotate 1) := by
  simp only [IsPtInArea_eq]
  refine ⟨by decide, ?_, ?_⟩ <;>
    norm_num [result, walked, ray, lastOf, wedge, wedgeQuery, List.rotate, boxOf, boxInit,
      boxStep, boxReject, refCollab, refCompfloat, refIsEqualTo, refIsOn, refIntersectWith,
      scan, crossing, setZ0, tol, dist2, segDist2, nearestOn]

/-- C16, amended: for every polygon with at least 3 vertices and every query point, the
result is the same for every cyclic rotation of the vertex sequence for which, as for the
sequence itself, the closure step appends the first vertex (the last vertex is not equal to
the first within tolerance). -/
theorem C16_rotation (G : Collab) (v0 : AcGePoint3d) (rest : List AcGePoint3d)
    (h3 : 3 ≤ (v0 :: rest).length) (pt : AcGePoint3d) (k : Nat)
    (w0 : AcGePoint3d) (rest2 : List AcGePoint3d)
    (hrot : (v0 :: rest).rotate k = w0 :: rest2)
    (hopen : bAddOf G v0 rest = true) (hopen2 : bAddOf G w0 rest2 = true) :
    ∃ r : Bool, IsPtInArea G pt (v0 :: rest) = some (r, v0 :: rest)
      ∧ IsPtInArea G pt ((v0 :: rest).rotate k) = some (r, (v0 :: rest).rotate k) := by
  refine ⟨result G pt (v0 :: rest), IsPtInArea_eq _ _ _, ?_⟩
  rw [IsPtInArea_eq, hrot]
  have hlen : (w0 :: rest2).length = (v0 :: rest).length := by
    rw [← hrot, List.length_rotate]
  have hmem : ∀ v, v ∈ w0 :: rest2 ↔ v ∈ v0 :: rest := by
    intro v
    rw [← hrot, List.mem_rotate]
  have hbox : boxOf w0 rest2 = boxOf v0 rest := boxOf_congr_mem w0 v0 rest2 rest hmem
  have hperm := cycleEdges_rotate v0 rest k w0 rest2 hrot
  rw [result_open G pt w0 rest2 (by omega) hopen2, result_open G pt v0 rest h3 hopen, hbox,
    any_hit_perm G _ _ _ hperm]
  simp only [oddCrossings, crossings_perm G _ _ _ hperm]

theorem C16_rotation_witness :
    ∃ r : Bool, IsPtInArea refCollab ⟨5, 5, 0⟩ square = some (r, square)
      ∧ IsPtInArea refCollab ⟨5, 5, 0⟩ (square.rotate 1) = some (r, square.rotate 1) :=
  C16_rotation refCollab ⟨0, 0, 0⟩ [⟨10, 0, 0⟩, ⟨10, 10, 0⟩, ⟨0, 10, 0⟩] (by decide) ⟨5, 5, 0⟩ 1
    ⟨10, 0, 0⟩ [⟨10, 10, 0⟩, ⟨0, 10, 0⟩, ⟨0, 0, 0⟩] (by simp [List.rotate])
    (by norm_num [bAddOf, lastOf, refCollab, refIsEqualTo, dist2, setZ0, tol])
    (by norm_num [bAddOf, lastOf, refCollab, refIsEqualTo, dist2, setZ0, tol])

theorem refCollab_degenerate_isOn (a p : AcGePoint3d)
    (h : refCollab.isOn ⟨a, a⟩ p tol = true) : refCollab.isEqualTo p a tol = true := by
  rw [refIsOn_iff] at h
  rw [refIsEqualTo_iff]
  have h0 : dist2 a a = 0 := by
    simp only [dist2]
    ring
  simpa [segDist2, nearestOn, h0] using h

theorem tolCollab_degenerate_isOn (a p : AcGePoint3d)
    (h : tolCollab.isOn ⟨a, a⟩ p tol = true) : tolCollab.isEqualTo p a tol = true :=
  refCollab_degenerate_isOn a p h

theorem tolCollab_degenerate_crossing (ls : AcGeLineSeg3d) (a : AcGePoint3d) :
    crossing tolCollab ls a a = 0 := by
  have hnone : refIntersectWith ls ⟨a, a⟩ tol = none := by
    simp [refIntersectWith]
  have hself : refIsEqualTo a a tol = true := by
    have h0 : dist2 a a = 0 := by
      simp only [dist2]
      ring
    simp only [refIsEqualTo, h0, tol, decide_eq_true_eq]
    norm_num
  have hdeg : ∀ p : AcGePoint3d, segDist2 a a p = dist2 p a := by
    intro p
    have h0 : dist2 a a = 0 := by
      simp only [dist2]
      ring
    simp [segDist2, nearestOn, h0]
  have hsymm : ∀ p q : AcGePoint3d, dist2 p q = dist2 q p := by
    intro p q
    simp only [dist2]
    ring
  have hs : segDist2 ls.startPoint ls.endPoint a ≤ dist2 ls.startPoint a := by
    have h := segDist2_le_point ls.startPoint ls.endPoint a 0 le_rfl zero_le_one
    simp only [zero_mul, add_zero] at h
    rw [hsymm]
    exact h
  have he : segDist2 ls.startPoint ls.endPoint a ≤ dist2 ls.endPoint a := by
    have h := segDist2_le_point ls.startPoint ls.endPoint a 1 zero_le_one le_rfl
    simp only [one_mul, add_sub_cancel] at h
    rw [hsymm]
    exact h
  by_cases h1 : segDist2 ls.startPoint ls.endPoint a ≤ tol.equalPoint ^ 2
  · simp [crossing, tolCollab, tolIntersectWith, hnone, h1, hself]
  · have h3 : ¬ dist2 ls.startPoint a ≤ tol.equalPoint ^ 2 := fun h => h1 (le_trans hs h)
    have h4 : ¬ dist2 ls.endPoint a ≤ tol.equalPoint ^ 2 := fun h => h1 (le_trans he h)
    simp [crossing, tolCollab, tolIntersectWith, hnone, h1, hdeg, h3, h4]

end CadGeometry
